import Mathlib

set_option maxHeartbeats 1000000

/-!
Verification development for the campaign preparation and dispatch engine of
the Api-Saas-Gapp repository.  The Python sources under `backend/` are embedded
shallowly: pure computations become Lean functions, the SQLAlchemy session is
an explicit record of lists, and calls into the Gmail transport are abstracted
by an outcome environment.  Floating-point-only fields (such as the estimated
send time) are omitted from the embedded records; no claim concerns them.
-/

namespace ApiSaasGapp

/-- Campaign lifecycle states, from `models.CampaignStatus`. -/
inductive CampaignStatus where
  | DRAFT
  | PREPARING
  | READY
  | SENDING
  | PAUSED
  | COMPLETED
  | FAILED
deriving DecidableEq, Repr

/-- Recipient delivery states, from `models.RecipientStatus`. -/
inductive RecipientStatus where
  | PENDING
  | ASSIGNED
  | SENDING
  | SENT
  | FAILED
deriving DecidableEq, Repr

/-- Sending-user lifecycle states, from `models.UserStatus`. -/
inductive UserStatus where
  | ACTIVE
  | INACTIVE
  | RATE_LIMITED
  | ERROR
deriving DecidableEq, Repr

/-- A Google Workspace account, from `models.Account`.  The daily and hourly
quota columns default to 2000 and 250 in the schema. -/
structure Account where
  id : Nat
  name : String
  active : Bool
  daily_quota : Nat
  hourly_quota : Nat
deriving DecidableEq, Repr

/-- A sending user (delegated mailbox), from `models.User`. -/
structure User where
  id : Nat
  email : String
  name : String
  status : UserStatus
  daily_sent_count : Nat
  hourly_sent_count : Nat
  last_error : Option String
  account_id : Nat
deriving DecidableEq, Repr

/-- A campaign recipient, from `models.Recipient`.  The JSON `custom_data`
column is embedded as an association list of string pairs. -/
structure Recipient where
  id : Nat
  email : String
  name : String
  custom_data : List (String × String)
  status : RecipientStatus
  last_error : Option String
deriving DecidableEq, Repr

/-- A planned unit of work, from `models.RecipientAssignment`. -/
structure RecipientAssignment where
  recipient_id : Nat
  user_id : Nat
  campaign_id : Nat
  batch_number : Nat
  priority : Nat
deriving DecidableEq, Repr

/-- The database snapshot the optimizer reads: accounts and users. -/
structure DB where
  accounts : List Account
  users : List User
deriving DecidableEq, Repr

/-- `crud.get_account`: first account with the given id. -/
def get_account (db : DB) (account_id : Nat) : Option Account :=
  db.accounts.find? (fun a => a.id == account_id)

/-- `crud.get_account_users`: the account's users, empty when the account is
missing (the source returns `[]` after logging). -/
def get_account_users (db : DB) (account_id : Nat) : List User :=
  match get_account db account_id with
  | none => []
  | some _ => db.users.filter (fun u => u.account_id == account_id)

/-- The `active_users` gathering loop of
`CampaignOptimizer.calculate_optimal_distribution`: users with `Active` status
from each selected account that exists and is active, in selection order. -/
def activeUsersFor (db : DB) (selected_accounts : List Nat) : List User :=
  selected_accounts.foldl
    (fun acc account_id =>
      match get_account db account_id with
      | some account =>
          if account.active then
            acc ++ (get_account_users db account_id).filter
              (fun u => u.status == UserStatus.ACTIVE)
          else acc
      | none => acc)
    []

/-- Per-user entry of the distribution dict built by
`calculate_optimal_distribution` (the capacity fields use the hard-coded
2000/250 limits of the source). -/
structure UserDistInfo where
  user_id : Nat
  account_id : Nat
  assigned_count : Nat
  daily_sent : Nat
  hourly_sent : Nat
  available_daily : Int
  available_hourly : Int
deriving DecidableEq, Repr

/-- Result record of `calculate_optimal_distribution` (the float-valued
`estimated_send_time` is omitted). -/
structure DistributionPlan where
  total_recipients : Nat
  total_users : Nat
  distribution : List (String × UserDistInfo)
  assignments_per_user : List (String × Nat)
  max_concurrent_batches : Nat
  recommended_batch_size : Nat
deriving DecidableEq, Repr

/-- Python-dict assignment `d[k] = v`: an existing key keeps its position and
gets the new value; a fresh key is appended. -/
def dictSet {α : Type} (l : List (String × α)) (k : String) (v : α) :
    List (String × α) :=
  match l with
  | [] => [(k, v)]
  | (k₁, v₁) :: rest =>
      if k₁ = k then (k, v) :: rest else (k₁, v₁) :: dictSet rest k v

/-- The `distribution[user.email]` entry for user number `i`. -/
def distInfoOf (base_load extra_load : Nat) (iu : Nat × User) : UserDistInfo :=
  { user_id := iu.2.id
    account_id := iu.2.account_id
    assigned_count := base_load + (if iu.1 < extra_load then 1 else 0)
    daily_sent := iu.2.daily_sent_count
    hourly_sent := iu.2.hourly_sent_count
    available_daily := 2000 - (iu.2.daily_sent_count : Int)
    available_hourly := 250 - (iu.2.hourly_sent_count : Int) }

/-- One iteration of the enumeration loop in
`calculate_optimal_distribution`: writes both the `distribution` entry and the
`user_assignments` entry for user number `i`. -/
def distStep (base_load extra_load : Nat)
    (acc : List (String × UserDistInfo) × List (String × Nat))
    (iu : Nat × User) : List (String × UserDistInfo) × List (String × Nat) :=
  (dictSet acc.1 iu.2.email (distInfoOf base_load extra_load iu),
   dictSet acc.2 iu.2.email
     (base_load + (if iu.1 < extra_load then 1 else 0)))

/-- `CampaignOptimizer.calculate_optimal_distribution`.  Raising
`ValueError("No active users available for sending")` is embedded as
`Except.error` with that message. -/
def calculate_optimal_distribution (db : DB) (recipients : List Recipient)
    (selected_accounts : List Nat) : Except String DistributionPlan :=
  let active_users := activeUsersFor db selected_accounts
  if active_users.isEmpty then
    .error "No active users available for sending"
  else
    let total_recipients := recipients.length
    let total_users := active_users.length
    let base_load := total_recipients / total_users
    let extra_load := total_recipients % total_users
    let pair := active_users.enum.foldl (distStep base_load extra_load) ([], [])
    let max_user_load :=
      if pair.2.isEmpty then 0 else (pair.2.map (fun e => e.2)).foldl Nat.max 0
    .ok
      { total_recipients := total_recipients
        total_users := total_users
        distribution := pair.1
        assignments_per_user := pair.2
        max_concurrent_batches := Nat.min 25 max_user_load
        recommended_batch_size := 25 }

/-! ### Helper lemmas about the distribution fold -/

theorem foldl_distStep_snd (l : List (Nat × User)) (b e : Nat)
    (d : List (String × UserDistInfo)) (u : List (String × Nat)) :
    (l.foldl (distStep b e) (d, u)).2 =
      l.foldl
        (fun ua iu => dictSet ua iu.2.email (b + if iu.1 < e then 1 else 0))
        u := by
  induction l generalizing d u with
  | nil => rfl
  | cons hd tl ih => simp only [List.foldl_cons, distStep, ih]

theorem dictSet_fresh {α : Type} (l : List (String × α)) (k : String) (v : α)
    (h : k ∉ l.map Prod.fst) : dictSet l k v = l ++ [(k, v)] := by
  induction l with
  | nil => rfl
  | cons hd tl ih =>
      simp only [List.map_cons, List.mem_cons] at h
      push_neg at h
      simp only [dictSet, if_neg (Ne.symm h.1), List.cons_append, ih h.2]

theorem foldl_dictSet_fresh {α β : Type} (key : β → String) (val : β → α)
    (l : List β) (acc : List (String × α))
    (hnd : (l.map key).Nodup) (hfresh : ∀ x ∈ l, key x ∉ acc.map Prod.fst) :
    l.foldl (fun a x => dictSet a (key x) (val x)) acc =
      acc ++ l.map (fun x => (key x, val x)) := by
  induction l generalizing acc with
  | nil => simp
  | cons hd tl ih =>
      simp only [List.map_cons, List.nodup_cons] at hnd
      have hhd : key hd ∉ acc.map Prod.fst := hfresh hd (List.mem_cons_self hd tl)
      simp only [List.foldl_cons, dictSet_fresh acc (key hd) (val hd) hhd]
      have hfresh2 : ∀ x ∈ tl,
          key x ∉ (acc ++ [(key hd, val hd)]).map Prod.fst := by
        intro x hx
        simp only [List.map_append, List.mem_append, List.map_cons,
          List.map_nil, List.mem_singleton, not_or]
        refine ⟨hfresh x (List.mem_cons_of_mem hd hx), ?_⟩
        intro hcontra
        exact hnd.1 (hcontra ▸ List.mem_map_of_mem key hx)
      rw [ih (acc ++ [(key hd, val hd)]) hnd.2 hfresh2]
      simp

/-- Closed form of the per-identity load list: the first `extra` identities
get `base + 1`, the remaining `k - extra` get `base`. -/
theorem loads_closed_form (k extra base : Nat) (h : extra ≤ k) :
    (List.range k).map (fun i => base + if i < extra then 1 else 0) =
      List.replicate extra (base + 1) ++ List.replicate (k - extra) base := by
  induction k with
  | zero =>
      interval_cases extra
      simp
  | succ k ih =>
      rcases Nat.lt_or_ge k extra with hlt | hge
      · -- extra = k + 1 : every index gets the larger share
        have hextra : extra = k + 1 := le_antisymm h hlt
        subst hextra
        have hall : ∀ n, n ≤ k + 1 →
            (List.range n).map (fun i => base + if i < k + 1 then 1 else 0) =
              List.replicate n (base + 1) := by
          intro n hn
          induction n with
          | zero => simp
          | succ m ihm =>
              rw [List.range_succ, List.map_append, ihm (Nat.le_of_succ_le hn)]
              have : m < k + 1 := hn
              simp [this, List.replicate_succ']
        rw [hall (k + 1) le_rfl]
        simp
      · -- extra ≤ k : the last index gets the base share
        rw [List.range_succ, List.map_append, ih hge]
        have hnot : ¬ k < extra := Nat.not_lt.mpr hge
        have hsub : k - extra + 1 = k + 1 - extra := by omega
        simp only [List.map_cons, List.map_nil, hnot, if_false, Nat.add_zero,
          List.append_assoc]
        rw [← List.replicate_succ']
        rw [hsub]

theorem sum_replicate_nat (n a : Nat) : (List.replicate n a).sum = n * a := by
  induction n with
  | zero => simp
  | succ m ih => simp [List.replicate_succ, ih, Nat.succ_mul]; ring

/-- The plan record the else-branch of `calculate_optimal_distribution`
produces. -/
def distPlanOf (db : DB) (recipients : List Recipient)
    (selected_accounts : List Nat) : DistributionPlan :=
  let active_users := activeUsersFor db selected_accounts
  let total_recipients := recipients.length
  let total_users := active_users.length
  let base_load := total_recipients / total_users
  let extra_load := total_recipients % total_users
  let pair := active_users.enum.foldl (distStep base_load extra_load) ([], [])
  let max_user_load :=
    if pair.2.isEmpty then 0 else (pair.2.map (fun e => e.2)).foldl Nat.max 0
  { total_recipients := total_recipients
    total_users := total_users
    distribution := pair.1
    assignments_per_user := pair.2
    max_concurrent_batches := Nat.min 25 max_user_load
    recommended_batch_size := 25 }

theorem calc_dist_eq_ok (db : DB) (recipients : List Recipient)
    (selected_accounts : List Nat)
    (hne : (activeUsersFor db selected_accounts).isEmpty = false) :
    calculate_optimal_distribution db recipients selected_accounts =
      .ok (distPlanOf db recipients selected_accounts) := by
  unfold calculate_optimal_distribution distPlanOf
  simp [hne]

/-- The `user_assignments` dict produced by `calculate_optimal_distribution`,
when the eligible users carry pairwise distinct email addresses, is exactly
the enumeration-ordered list of per-identity loads. -/
theorem assignments_per_user_eq (db : DB) (recipients : List Recipient)
    (selected_accounts : List Nat)
    (hnd : ((activeUsersFor db selected_accounts).map (fun u => u.email)).Nodup) :
    (distPlanOf db recipients selected_accounts).assignments_per_user =
      (activeUsersFor db selected_accounts).enum.map
        (fun iu => (iu.2.email,
          recipients.length / (activeUsersFor db selected_accounts).length +
            if iu.1 <
                recipients.length %
                  (activeUsersFor db selected_accounts).length
            then 1 else 0)) := by
  unfold distPlanOf
  simp only
  rw [foldl_distStep_snd]
  have hkey : ((activeUsersFor db selected_accounts).enum.map
      (fun iu : Nat × User => iu.2.email)).Nodup := by
    have heq : (activeUsersFor db selected_accounts).enum.map
        (fun iu : Nat × User => iu.2.email) =
        ((activeUsersFor db selected_accounts).enum.map Prod.snd).map
          (fun u => u.email) := by
      rw [List.map_map]
      rfl
    rw [heq, List.enum_map_snd]
    exact hnd
  have hfold := foldl_dictSet_fresh (fun iu : Nat × User => iu.2.email)
    (fun iu : Nat × User =>
      recipients.length / (activeUsersFor db selected_accounts).length +
        if iu.1 <
            recipients.length % (activeUsersFor db selected_accounts).length
        then 1 else 0)
    (activeUsersFor db selected_accounts).enum [] hkey (by intro x _; simp)
  rw [hfold]
  simp

theorem mapsnd_enum_range (users : List User) (N : Nat) :
    ((users.enum.map (fun iu =>
        (iu.2.email,
          N / users.length +
            if iu.1 < N % users.length then 1 else 0))).map Prod.snd) =
      (List.range users.length).map
        (fun i => N / users.length + if i < N % users.length then 1 else 0) := by
  rw [List.map_map]
  have h1 : (Prod.snd ∘ fun iu : Nat × User =>
      (iu.2.email,
        N / users.length + if iu.1 < N % users.length then 1 else 0)) =
      ((fun i => N / users.length + if i < N % users.length then 1 else 0) ∘
        Prod.fst) := rfl
  rw [h1, ← List.map_map, List.enum_map_fst]

/-- C1: with at least one recipient and a non-empty eligible identity set
whose email addresses are pairwise distinct (the data model's uniqueness
invariant for sending identities), the planner succeeds and its per-identity
loads sum to `N`, pairwise differ by at most one, contain exactly `N mod K`
larger shares `base + 1`, and the larger shares sit on the first `N mod K`
identities in the plan's stable order. -/
theorem C1_even_distribution (db : DB) (recipients : List Recipient)
    (selected_accounts : List Nat)
    (hN : 0 < recipients.length)
    (hK : activeUsersFor db selected_accounts ≠ [])
    (hnd : ((activeUsersFor db selected_accounts).map
      (fun u => u.email)).Nodup) :
    ∃ plan, calculate_optimal_distribution db recipients selected_accounts =
        .ok plan ∧
      ((plan.assignments_per_user.map Prod.snd).sum = recipients.length ∧
       (∀ x ∈ plan.assignments_per_user.map Prod.snd,
          ∀ y ∈ plan.assignments_per_user.map Prod.snd, x ≤ y + 1) ∧
       (plan.assignments_per_user.map Prod.snd).count
          (recipients.length / (activeUsersFor db selected_accounts).length
            + 1) =
          recipients.length % (activeUsersFor db selected_accounts).length ∧
       (plan.assignments_per_user.map Prod.snd).take
          (recipients.length % (activeUsersFor db selected_accounts).length) =
         List.replicate
          (recipients.length % (activeUsersFor db selected_accounts).length)
          (recipients.length / (activeUsersFor db selected_accounts).length
            + 1) ∧
       (plan.assignments_per_user.map Prod.snd).drop
          (recipients.length % (activeUsersFor db selected_accounts).length) =
         List.replicate
          ((activeUsersFor db selected_accounts).length -
            recipients.length % (activeUsersFor db selected_accounts).length)
          (recipients.length /
            (activeUsersFor db selected_accounts).length)) := by
  have hne : (activeUsersFor db selected_accounts).isEmpty = false := by
    cases h : activeUsersFor db selected_accounts with
    | nil => exact absurd h hK
    | cons a l => rfl
  have hKpos : 0 < (activeUsersFor db selected_accounts).length := by
    cases h : activeUsersFor db selected_accounts with
    | nil => exact absurd h hK
    | cons a l => simp
  refine ⟨distPlanOf db recipients selected_accounts,
    calc_dist_eq_ok db recipients selected_accounts hne, ?_⟩
  rw [assignments_per_user_eq db recipients selected_accounts hnd,
    mapsnd_enum_range]
  set K := (activeUsersFor db selected_accounts).length with hKdef
  set N := recipients.length with hNdef
  have hmodK : N % K ≤ K := le_of_lt (Nat.mod_lt _ hKpos)
  rw [loads_closed_form K (N % K) (N / K) hmodK]
  refine ⟨?_, ?_, ?_, ?_, ?_⟩
  · -- the loads sum to N
    rw [List.sum_append, sum_replicate_nat, sum_replicate_nat]
    calc (N % K) * (N / K + 1) + (K - N % K) * (N / K)
        = (N % K + (K - N % K)) * (N / K) + N % K := by ring
      _ = K * (N / K) + N % K := by rw [Nat.add_sub_cancel' hmodK]
      _ = N := Nat.div_add_mod N K
  · -- pairwise difference at most one
    intro x hx y hy
    simp only [List.mem_append, List.mem_replicate] at hx hy
    rcases hx with ⟨-, hx⟩ | ⟨-, hx⟩ <;> rcases hy with ⟨-, hy⟩ | ⟨-, hy⟩ <;>
      omega
  · -- exactly N mod K larger shares
    rw [List.count_append, List.count_replicate, List.count_replicate]
    have h1 : ¬ (N / K + 1 = N / K) := by omega
    simp [h1]
  · -- the larger shares come first
    have hlen : (List.replicate (N % K) (N / K + 1)).length = N % K := by
      simp
    exact List.take_left' hlen
  · -- the remaining identities get the base share
    have hlen : (List.replicate (N % K) (N / K + 1)).length = N % K := by
      simp
    exact List.drop_left' hlen

/-- Concrete data for witnesses: one active account with three active users
carrying distinct emails. -/
def dbW : DB :=
  ⟨[⟨1, "acme", true, 2000, 250⟩],
   [⟨11, "a@acme.io", "A", .ACTIVE, 0, 0, none, 1⟩,
    ⟨12, "b@acme.io", "B", .ACTIVE, 0, 0, none, 1⟩,
    ⟨13, "c@acme.io", "C", .ACTIVE, 0, 0, none, 1⟩]⟩

/-- Seventeen identical pending recipients (only the length matters to the
planner). -/
def recipsW : List Recipient :=
  List.replicate 17 ⟨0, "r@x.io", "R", [], .PENDING, none⟩

/-- Witness for C1 at N = 17 recipients and K = 3 identities. -/
theorem C1_even_distribution_witness :
    0 < recipsW.length ∧ activeUsersFor dbW [1] ≠ [] ∧
      ((activeUsersFor dbW [1]).map (fun u => u.email)).Nodup ∧
      (∃ plan, calculate_optimal_distribution dbW recipsW [1] = .ok plan ∧
        ((plan.assignments_per_user.map Prod.snd).sum = recipsW.length ∧
         (∀ x ∈ plan.assignments_per_user.map Prod.snd,
            ∀ y ∈ plan.assignments_per_user.map Prod.snd, x ≤ y + 1) ∧
         (plan.assignments_per_user.map Prod.snd).count
            (recipsW.length / (activeUsersFor dbW [1]).length + 1) =
            recipsW.length % (activeUsersFor dbW [1]).length ∧
         (plan.assignments_per_user.map Prod.snd).take
            (recipsW.length % (activeUsersFor dbW [1]).length) =
           List.replicate (recipsW.length % (activeUsersFor dbW [1]).length)
            (recipsW.length / (activeUsersFor dbW [1]).length + 1) ∧
         (plan.assignments_per_user.map Prod.snd).drop
            (recipsW.length % (activeUsersFor dbW [1]).length) =
           List.replicate
            ((activeUsersFor dbW [1]).length -
              recipsW.length % (activeUsersFor dbW [1]).length)
            (recipsW.length / (activeUsersFor dbW [1]).length))) :=
  ⟨by decide, by decide, by decide,
    C1_even_distribution dbW recipsW [1] (by decide) (by decide) (by decide)⟩

/-! ### Assignment materialization and sending order
(`CampaignOptimizer.create_recipient_assignments`,
`CampaignOptimizer.optimize_sending_order`) -/

/-- Inner loop of `create_recipient_assignments` for one user: walks
`assigned_count` slots, consuming recipients at the running index while any
remain; `batch_number = i / 25`, `priority = i % 25`. -/
def assignForUser (campaign_id user_id : Nat) (recipients : List Recipient)
    (assigned_count : Nat) (start : List RecipientAssignment × Nat) :
    List RecipientAssignment × Nat :=
  (List.range assigned_count).foldl
    (fun acc i =>
      match recipients.get? acc.2 with
      | some recipient =>
          (acc.1 ++
            [{ recipient_id := recipient.id
               user_id := user_id
               campaign_id := campaign_id
               batch_number := i / 25
               priority := i % 25 }],
           acc.2 + 1)
      | none => acc)
    start

/-- `CampaignOptimizer.create_recipient_assignments`: walks the distribution
dict in insertion order, slicing the recipient list contiguously. -/
def create_recipient_assignments (campaign_id : Nat)
    (recipients : List Recipient)
    (distribution : List (String × UserDistInfo)) :
    List RecipientAssignment :=
  (distribution.foldl
    (fun acc e =>
      assignForUser campaign_id e.2.user_id recipients e.2.assigned_count acc)
    ([], 0)).1

/-- Ordered-dict lookup `d[k]` / `k in d`. -/
def assocFind? {β : Type} (l : List (Nat × β)) (k : Nat) : Option β :=
  (l.find? (fun e => e.1 == k)).map (fun e => e.2)

/-- `d.setdefault(k, []).append(a)` on an insertion-ordered dict of lists. -/
def addToGroup {α : Type} (k : Nat) (l : List (Nat × List α)) (a : α) :
    List (Nat × List α) :=
  match l with
  | [] => [(k, [a])]
  | (k₁, xs) :: rest =>
      if k₁ = k then (k₁, xs ++ [a]) :: rest
      else (k₁, xs) :: addToGroup k rest a

/-- One step of the two-level `user_batches` grouping loop of
`optimize_sending_order`. -/
def addUB (a : RecipientAssignment)
    (l : List (Nat × List (Nat × List RecipientAssignment))) :
    List (Nat × List (Nat × List RecipientAssignment)) :=
  match l with
  | [] => [(a.user_id, [(a.batch_number, [a])])]
  | (u, m) :: rest =>
      if u = a.user_id then (u, addToGroup a.batch_number m a) :: rest
      else (u, m) :: addUB a rest

/-- The `user_batches` nested dict of `optimize_sending_order`. -/
def groupUserBatches (assignments : List RecipientAssignment) :
    List (Nat × List (Nat × List RecipientAssignment)) :=
  assignments.foldl (fun acc a => addUB a acc) []

/-- `max(batches.keys()) if batches else 0` for one user. -/
def innerMaxKey (m : List (Nat × List RecipientAssignment)) : Nat :=
  if m.isEmpty then 0 else (m.map Prod.fst).foldl Nat.max 0

/-- `max(... for batches in user_batches.values()) + 1 if user_batches
else 0`. -/
def maxBatchesOf
    (ub : List (Nat × List (Nat × List RecipientAssignment))) : Nat :=
  if ub.isEmpty then 0
  else ((ub.map (fun e => innerMaxKey e.2)).foldl Nat.max 0) + 1

/-- `CampaignOptimizer.optimize_sending_order`: emits, for each batch number
in ascending order, every user's group for that batch, users in
first-appearance order. -/
def optimize_sending_order (assignments : List RecipientAssignment) :
    List RecipientAssignment :=
  let user_batches := groupUserBatches assignments
  let max_batches := maxBatchesOf user_batches
  (List.range max_batches).foldl
    (fun acc batch_num =>
      user_batches.foldl
        (fun acc2 e =>
          match assocFind? e.2 batch_num with
          | some group => acc2 ++ group
          | none => acc2)
        acc)
    []

/-! ### Capacity validation (`CampaignOptimizer.validate_account_capacity`) -/

/-- Per-account row of the capacity breakdown. -/
structure AccountCapacityDetail where
  account_id : Nat
  account_name : String
  active_users : Nat
  total_users : Nat
  capacity : Int
deriving DecidableEq, Repr

/-- Result of `validate_account_capacity` (the float-valued
`capacity_utilization` is omitted). -/
structure CapacityCheck where
  total_capacity : Int
  required_capacity : Nat
  sufficient_capacity : Bool
  account_details : List AccountCapacityDetail
deriving DecidableEq, Repr

/-- `max(0, min(2000 - daily_sent, 250 - hourly_sent))` for one user. -/
def userCapacity (u : User) : Int :=
  max 0 (min (2000 - (u.daily_sent_count : Int))
             (250 - (u.hourly_sent_count : Int)))

/-- `CampaignOptimizer.validate_account_capacity`: missing or inactive
accounts are skipped; capacity sums active users' available quota with the
hard-coded 2000/250 limits. -/
def validate_account_capacity (db : DB) (selected_accounts : List Nat)
    (recipient_count : Nat) : CapacityCheck :=
  let pair := selected_accounts.foldl
    (fun (acc : Int × List AccountCapacityDetail) account_id =>
      match get_account db account_id with
      | none => acc
      | some account =>
          if account.active then
            let users := get_account_users db account_id
            let active_users :=
              users.filter (fun u => u.status == UserStatus.ACTIVE)
            let account_capacity :=
              active_users.foldl (fun c u => c + userCapacity u) 0
            (acc.1 + account_capacity,
             acc.2 ++
               [{ account_id := account_id
                  account_name := account.name
                  active_users := active_users.length
                  total_users := users.length
                  capacity := account_capacity }])
          else acc)
    (0, [])
  { total_capacity := pair.1
    required_capacity := recipient_count
    sufficient_capacity := decide ((recipient_count : Int) ≤ pair.1)
    account_details := pair.2 }

/-! ### Campaign preparation (`crud.prepare_campaign_for_sending`) -/

/-- The campaign-side state `prepare_campaign_for_sending` reads and writes:
its status, its recipients and its current assignment rows. -/
structure PrepInput where
  status : CampaignStatus
  recipients : List Recipient
  assignments : List RecipientAssignment
deriving DecidableEq, Repr

/-- The structured result dict of `prepare_campaign_for_sending`. -/
inductive PrepOutcome where
  | ok (total_recipients total_users : Nat)
      (assignments_per_user : List (String × Nat))
  | err (msg : String)
deriving DecidableEq, Repr

/-- Post-state of `prepare_campaign_for_sending`: committed campaign status,
the campaign's assignment rows, and the returned dict. -/
structure PrepResultState where
  status : CampaignStatus
  assignments : List RecipientAssignment
  outcome : PrepOutcome
deriving DecidableEq, Repr

/-- `crud.prepare_campaign_for_sending`.  The status flip to `Preparing` is
committed before any check; the early returns for missing recipients and for
insufficient capacity do not restore the status; the `except` handler (whose
only reachable raiser is `calculate_optimal_distribution`) reverts to
`Draft`.  On success prior assignment rows are deleted and replaced by the
freshly optimized ones. -/
def prepare_campaign_for_sending (db : DB) (campaign_id : Nat)
    (c : PrepInput) (selected_accounts : List Nat) : PrepResultState :=
  if c.status ≠ CampaignStatus.DRAFT then
    { status := c.status, assignments := c.assignments
      outcome := .err "Campaign must be in Draft status" }
  else
    let recipients := c.recipients
    if recipients.isEmpty then
      { status := .PREPARING, assignments := c.assignments
        outcome := .err "No recipients found" }
    else
      let capacity_check :=
        validate_account_capacity db selected_accounts recipients.length
      if capacity_check.sufficient_capacity = false then
        { status := .PREPARING, assignments := c.assignments
          outcome := .err "Insufficient capacity" }
      else
        match calculate_optimal_distribution db recipients selected_accounts with
        | .error msg =>
            { status := .DRAFT, assignments := c.assignments
              outcome := .err msg }
        | .ok distribution =>
            let assignments :=
              create_recipient_assignments campaign_id recipients
                distribution.distribution
            let optimized := optimize_sending_order assignments
            { status := .READY, assignments := optimized
              outcome := .ok recipients.length distribution.total_users
                distribution.assignments_per_user }

/-! ### Structure lemmas for the grouping dictionaries -/

theorem assocFind?_nil {β : Type} (k : Nat) :
    assocFind? ([] : List (Nat × β)) k = none := rfl

theorem assocFind?_cons {β : Type} (k₁ : Nat) (v : β) (rest : List (Nat × β))
    (k : Nat) :
    assocFind? ((k₁, v) :: rest) k =
      if k₁ = k then some v else assocFind? rest k := by
  by_cases h : k₁ = k
  · subst h
    rw [if_pos rfl]
    unfold assocFind?
    rw [List.find?_cons_of_pos _ (by simp)]
    rfl
  · rw [if_neg h]
    unfold assocFind?
    rw [List.find?_cons_of_neg _ (by simp [h])]

theorem assocFind?_mem {β : Type} (l : List (Nat × β)) (k : Nat) (v : β)
    (h : assocFind? l k = some v) : (k, v) ∈ l := by
  induction l with
  | nil => simp [assocFind?] at h
  | cons hd tl ih =>
      obtain ⟨k₁, v₁⟩ := hd
      rw [assocFind?_cons] at h
      by_cases hk : k₁ = k
      · rw [if_pos hk] at h
        subst hk
        cases h
        exact List.mem_cons_self _ _
      · rw [if_neg hk] at h
        exact List.mem_cons_of_mem _ (ih h)

theorem assocFind?_of_mem_nodup {β : Type} (l : List (Nat × β)) (k : Nat)
    (v : β) (hnd : (l.map Prod.fst).Nodup) (h : (k, v) ∈ l) :
    assocFind? l k = some v := by
  induction l with
  | nil => simp at h
  | cons hd tl ih =>
      obtain ⟨k₁, v₁⟩ := hd
      simp only [List.map_cons, List.nodup_cons] at hnd
      rcases List.mem_cons.mp h with heq | hmem
      · cases heq
        rw [assocFind?_cons, if_pos rfl]
      · have hk : k₁ ≠ k := by
          intro hk
          subst hk
          exact hnd.1 (List.mem_map_of_mem Prod.fst hmem)
        rw [assocFind?_cons, if_neg hk]
        exact ih hnd.2 hmem

theorem addToGroup_nil {α : Type} (k : Nat) (a : α) :
    addToGroup k ([] : List (Nat × List α)) a = [(k, [a])] := rfl

theorem addToGroup_cons {α : Type} (k k₁ : Nat) (xs : List α)
    (rest : List (Nat × List α)) (a : α) :
    addToGroup k ((k₁, xs) :: rest) a =
      if k₁ = k then (k₁, xs ++ [a]) :: rest
      else (k₁, xs) :: addToGroup k rest a := rfl

theorem addToGroup_leaf {α : Type} (k : Nat) (l : List (Nat × List α)) (a : α)
    (j : Nat) :
    (assocFind? (addToGroup k l a) j).getD [] =
      (assocFind? l j).getD [] ++ (if j = k then [a] else []) := by
  induction l with
  | nil =>
      rw [addToGroup_nil, assocFind?_cons]
      by_cases h : k = j
      · rw [if_pos h, if_pos h.symm]
        simp [assocFind?_nil]
      · rw [if_neg h, if_neg (fun hc => h hc.symm)]
        simp [assocFind?_nil]
  | cons hd tl ih =>
      obtain ⟨k₁, xs⟩ := hd
      rw [addToGroup_cons]
      by_cases h1 : k₁ = k
      · rw [if_pos h1]
        subst h1
        rw [assocFind?_cons, assocFind?_cons]
        by_cases h2 : k₁ = j
        · rw [if_pos h2, if_pos h2, if_pos h2.symm]
          simp
        · rw [if_neg h2, if_neg h2, if_neg (fun hc => h2 hc.symm)]
          simp
      · rw [if_neg h1, assocFind?_cons, assocFind?_cons]
        by_cases h2 : k₁ = j
        · rw [if_pos h2, if_pos h2,
            if_neg (fun hc : j = k => h1 (h2.trans hc))]
          simp
        · rw [if_neg h2, if_neg h2]
          exact ih

/-- The (user, batch) leaf list of the nested `user_batches` dict. -/
def leaf2 (l : List (Nat × List (Nat × List RecipientAssignment)))
    (u b : Nat) : List RecipientAssignment :=
  (assocFind? ((assocFind? l u).getD []) b).getD []

/-- The assignments of user `u` and batch `b`, in original list order. -/
def ubFilter (as : List RecipientAssignment) (u b : Nat) :
    List RecipientAssignment :=
  as.filter (fun x => decide (x.user_id = u ∧ x.batch_number = b))

theorem ubFilter_cons (a : RecipientAssignment) (as : List RecipientAssignment)
    (u b : Nat) :
    ubFilter (a :: as) u b =
      if u = a.user_id ∧ b = a.batch_number then a :: ubFilter as u b
      else ubFilter as u b := by
  unfold ubFilter
  rw [List.filter_cons]
  by_cases hc : u = a.user_id ∧ b = a.batch_number
  · have hd : decide (a.user_id = u ∧ a.batch_number = b) = true := by
      simp [hc.1, hc.2]
    rw [hd, if_pos hc]
    simp
  · have hd : decide (a.user_id = u ∧ a.batch_number = b) = false := by
      simp only [decide_eq_false_iff_not]
      intro hcc
      exact hc ⟨hcc.1.symm, hcc.2.symm⟩
    rw [hd, if_neg hc]
    simp

theorem addUB_nil (a : RecipientAssignment) :
    addUB a [] = [(a.user_id, [(a.batch_number, [a])])] := rfl

theorem addUB_cons (a : RecipientAssignment) (u₁ : Nat)
    (m : List (Nat × List RecipientAssignment))
    (tl : List (Nat × List (Nat × List RecipientAssignment))) :
    addUB a ((u₁, m) :: tl) =
      if u₁ = a.user_id then (u₁, addToGroup a.batch_number m a) :: tl
      else (u₁, m) :: addUB a tl := rfl

theorem addUB_leaf (a : RecipientAssignment)
    (l : List (Nat × List (Nat × List RecipientAssignment))) (u b : Nat) :
    leaf2 (addUB a l) u b =
      leaf2 l u b ++
        (if u = a.user_id ∧ b = a.batch_number then [a] else []) := by
  induction l with
  | nil =>
      unfold leaf2
      rw [addUB_nil, assocFind?_cons, assocFind?_nil]
      by_cases h : a.user_id = u
      · rw [if_pos h]
        simp only [Option.getD_some, Option.getD_none]
        rw [assocFind?_cons, assocFind?_nil]
        by_cases h2 : a.batch_number = b
        · rw [if_pos h2, if_pos ⟨h.symm, h2.symm⟩]
          simp [assocFind?_nil]
        · rw [if_neg h2, if_neg (fun hc => h2 hc.2.symm)]
          simp [assocFind?_nil]
      · rw [if_neg h, if_neg (fun hc => h hc.1.symm)]
        simp [assocFind?_nil]
  | cons hd tl ih =>
      obtain ⟨u₁, m⟩ := hd
      rw [addUB_cons]
      by_cases h1 : u₁ = a.user_id
      · rw [if_pos h1]
        unfold leaf2
        rw [assocFind?_cons, assocFind?_cons]
        by_cases h2 : u₁ = u
        · rw [if_pos h2, if_pos h2]
          simp only [Option.getD_some]
          rw [addToGroup_leaf]
          have hu : u = a.user_id := h2 ▸ h1
          by_cases h3 : b = a.batch_number
          · rw [if_pos h3, if_pos ⟨hu, h3⟩]
          · rw [if_neg h3, if_neg (fun hc => h3 hc.2)]
        · rw [if_neg h2, if_neg h2]
          have hcond : ¬ (u = a.user_id ∧ b = a.batch_number) :=
            fun hc => h2 (h1.trans hc.1.symm)
          rw [if_neg hcond]
          simp
      · rw [if_neg h1]
        unfold leaf2
        rw [assocFind?_cons, assocFind?_cons]
        by_cases h2 : u₁ = u
        · rw [if_pos h2, if_pos h2]
          have hcond : ¬ (u = a.user_id ∧ b = a.batch_number) :=
            fun hc => h1 (h2.trans hc.1)
          rw [if_neg hcond]
          simp
        · rw [if_neg h2, if_neg h2]
          exact ih

theorem groupUB_leaf (as : List RecipientAssignment) (u b : Nat) :
    leaf2 (groupUserBatches as) u b = ubFilter as u b := by
  suffices h : ∀ acc, leaf2 (as.foldl (fun acc a => addUB a acc) acc) u b =
      leaf2 acc u b ++ ubFilter as u b by
    have h0 := h []
    unfold groupUserBatches
    rw [h0]
    unfold leaf2
    simp [assocFind?_nil]
  induction as with
  | nil =>
      intro acc
      unfold ubFilter
      simp
  | cons a as ih =>
      intro acc
      rw [List.foldl_cons, ih (addUB a acc), addUB_leaf, ubFilter_cons]
      by_cases hc : u = a.user_id ∧ b = a.batch_number
      · rw [if_pos hc, if_pos hc]
        simp
      · rw [if_neg hc, if_neg hc]
        simp

theorem addUB_keys_mem (a : RecipientAssignment)
    (l : List (Nat × List (Nat × List RecipientAssignment))) (u : Nat) :
    u ∈ (addUB a l).map Prod.fst ↔
      u ∈ l.map Prod.fst ∨ u = a.user_id := by
  induction l with
  | nil =>
      rw [addUB_nil]
      simp
  | cons hd tl ih =>
      obtain ⟨u₁, m⟩ := hd
      rw [addUB_cons]
      by_cases h1 : u₁ = a.user_id
      · rw [if_pos h1]
        subst h1
        simp only [List.map_cons, List.mem_cons]
        tauto
      · rw [if_neg h1]
        simp only [List.map_cons, List.mem_cons, ih]
        tauto

theorem addUB_keys_nodup (a : RecipientAssignment)
    (l : List (Nat × List (Nat × List RecipientAssignment)))
    (h : (l.map Prod.fst).Nodup) : ((addUB a l).map Prod.fst).Nodup := by
  induction l with
  | nil =>
      rw [addUB_nil]
      simp
  | cons hd tl ih =>
      obtain ⟨u₁, m⟩ := hd
      simp only [List.map_cons, List.nodup_cons] at h
      rw [addUB_cons]
      by_cases h1 : u₁ = a.user_id
      · rw [if_pos h1]
        simp only [List.map_cons, List.nodup_cons]
        exact h
      · rw [if_neg h1]
        simp only [List.map_cons, List.nodup_cons]
        refine ⟨?_, ih h.2⟩
        rw [addUB_keys_mem]
        rintro (hm | hm)
        · exact h.1 hm
        · exact h1 hm

theorem groupUB_keys_nodup (as : List RecipientAssignment) :
    ((groupUserBatches as).map Prod.fst).Nodup := by
  suffices h : ∀ acc, ((acc : List (Nat × List (Nat ×
      List RecipientAssignment))).map Prod.fst).Nodup →
      ((as.foldl (fun acc a => addUB a acc) acc).map Prod.fst).Nodup from
    h [] (by simp)
  induction as with
  | nil => intro acc hacc; exact hacc
  | cons a as ih =>
      intro acc hacc
      rw [List.foldl_cons]
      exact ih (addUB a acc) (addUB_keys_nodup a acc hacc)

theorem groupUB_keys_mem (as : List RecipientAssignment)
    (x : RecipientAssignment) (hx : x ∈ as) :
    x.user_id ∈ (groupUserBatches as).map Prod.fst := by
  suffices h : ∀ acc,
      x.user_id ∈ ((as.foldl (fun acc a => addUB a acc) acc).map Prod.fst) ∨
        False from (h []).resolve_right id
  induction as with
  | nil => cases hx
  | cons a as ih =>
      intro acc
      rw [List.foldl_cons]
      rcases List.mem_cons.mp hx with heq | hmem
      · subst heq
        left
        -- the key survives hereafter: monotonicity of the fold over keys
        have hmono : ∀ (bs : List RecipientAssignment)
            (acc2 : List (Nat × List (Nat × List RecipientAssignment)))
            (u : Nat), u ∈ acc2.map Prod.fst →
            u ∈ ((bs.foldl (fun acc a => addUB a acc) acc2).map Prod.fst) := by
          intro bs
          induction bs with
          | nil => intro acc2 u hu; exact hu
          | cons b bs ihb =>
              intro acc2 u hu
              rw [List.foldl_cons]
              exact ihb (addUB b acc2) u ((addUB_keys_mem b acc2 u).mpr
                (Or.inl hu))
        exact hmono as (addUB x acc) x.user_id
          ((addUB_keys_mem x acc x.user_id).mpr (Or.inr rfl))
      · exact (ih hmem) (addUB a acc)

theorem le_foldl_max (L : List Nat) (i : Nat) : i ≤ L.foldl Nat.max i := by
  induction L generalizing i with
  | nil => exact le_rfl
  | cons hd tl ih =>
      rw [List.foldl_cons]
      exact le_trans (Nat.le_max_left i hd) (ih (Nat.max i hd))

theorem mem_le_foldl_max (L : List Nat) (x : Nat) (hx : x ∈ L) (i : Nat) :
    x ≤ L.foldl Nat.max i := by
  induction L generalizing i with
  | nil => cases hx
  | cons hd tl ih =>
      rw [List.foldl_cons]
      rcases List.mem_cons.mp hx with heq | hmem
      · subst heq
        exact le_trans (Nat.le_max_right i x) (le_foldl_max tl (Nat.max i x))
      · exact ih hmem (Nat.max i hd)

/-- Every assignment's batch number is below the computed batch range, so the
wave loop visits all of them. -/
theorem batch_lt_maxBatches (as : List RecipientAssignment)
    (x : RecipientAssignment) (hx : x ∈ as) :
    x.batch_number < maxBatchesOf (groupUserBatches as) := by
  have hleaf : x ∈ leaf2 (groupUserBatches as) x.user_id x.batch_number := by
    rw [groupUB_leaf]
    unfold ubFilter
    rw [List.mem_filter]
    exact ⟨hx, by simp⟩
  unfold leaf2 at hleaf
  cases h1 : assocFind? (groupUserBatches as) x.user_id with
  | none => rw [h1] at hleaf; simp [assocFind?_nil] at hleaf
  | some m =>
      rw [h1] at hleaf
      simp only [Option.getD_some] at hleaf
      cases h2 : assocFind? m x.batch_number with
      | none => rw [h2] at hleaf; simp at hleaf
      | some xs =>
          have hbm : (x.batch_number, xs) ∈ m := assocFind?_mem m _ _ h2
          have hbk : x.batch_number ∈ m.map Prod.fst :=
            List.mem_map_of_mem Prod.fst hbm
          have hinner : x.batch_number ≤ innerMaxKey m := by
            unfold innerMaxKey
            have hne : m.isEmpty = false := by
              cases m with
              | nil => cases hbm
              | cons c l => rfl
            rw [hne]
            simp only [Bool.false_eq_true, if_false]
            exact mem_le_foldl_max _ _ hbk 0
          have hum : (x.user_id, m) ∈ groupUserBatches as :=
            assocFind?_mem _ _ _ h1
          have houter : innerMaxKey m ≤
              ((groupUserBatches as).map (fun e => innerMaxKey e.2)).foldl
                Nat.max 0 := by
            apply mem_le_foldl_max
            exact List.mem_map_of_mem (fun e => innerMaxKey e.2) hum
          unfold maxBatchesOf
          have hne : (groupUserBatches as).isEmpty = false := by
            cases h : groupUserBatches as with
            | nil => rw [h] at hum; cases hum
            | cons c l => rfl
          rw [hne]
          simp only [Bool.false_eq_true, if_false]
          omega

theorem matchStep_eq (b : Nat) :
    (fun (acc2 : List RecipientAssignment)
        (e : Nat × List (Nat × List RecipientAssignment)) =>
      match assocFind? e.2 b with
      | some group => acc2 ++ group
      | none => acc2) =
    (fun acc2 e => acc2 ++ (assocFind? e.2 b).getD []) := by
  funext acc2 e
  cases h : assocFind? e.2 b <;> simp [h]

theorem foldl_extend_eq_join {α β : Type} (g : β → List α) (l : List β)
    (acc : List α) :
    l.foldl (fun a e => a ++ g e) acc = acc ++ (l.map g).join := by
  induction l generalizing acc with
  | nil => simp
  | cons hd tl ih =>
      rw [List.foldl_cons, ih]
      simp

/-- The wave emitted for batch `b`: each user's batch-`b` assignments, users
in first-appearance order. -/
def waveOf (as : List RecipientAssignment) (b : Nat) :
    List RecipientAssignment :=
  ((groupUserBatches as).map (fun e => ubFilter as e.1 b)).join

/-- `optimize_sending_order` in closed form: the concatenation, over
ascending batch numbers, of the per-user batch groups. -/
theorem optimize_closed_form (as : List RecipientAssignment) :
    optimize_sending_order as =
      ((List.range (maxBatchesOf (groupUserBatches as))).map
        (waveOf as)).join := by
  have hstep : ∀ (acc : List RecipientAssignment) (b : Nat),
      (groupUserBatches as).foldl
        (fun acc2 e =>
          match assocFind? e.2 b with
          | some group => acc2 ++ group
          | none => acc2) acc = acc ++ waveOf as b := by
    intro acc b
    rw [matchStep_eq b, foldl_extend_eq_join]
    unfold waveOf
    congr 1
    congr 1
    apply List.map_congr_left
    intro e he
    obtain ⟨u, m⟩ := e
    have hfind : assocFind? (groupUserBatches as) u = some m :=
      assocFind?_of_mem_nodup _ u m (groupUB_keys_nodup as) he
    have hleaf : leaf2 (groupUserBatches as) u b = (assocFind? m b).getD [] := by
      unfold leaf2
      rw [hfind]
      rfl
    rw [← groupUB_leaf as u b]
    exact hleaf.symm
  have hbody : (fun (acc : List RecipientAssignment) (batch_num : Nat) =>
      (groupUserBatches as).foldl
        (fun acc2 e =>
          match assocFind? e.2 batch_num with
          | some group => acc2 ++ group
          | none => acc2) acc) =
      (fun acc batch_num => acc ++ waveOf as batch_num) := by
    funext acc batch_num
    exact hstep acc batch_num
  rw [show optimize_sending_order as =
      (List.range (maxBatchesOf (groupUserBatches as))).foldl
        (fun acc batch_num =>
          (groupUserBatches as).foldl
            (fun acc2 e =>
              match assocFind? e.2 batch_num with
              | some group => acc2 ++ group
              | none => acc2) acc)
        [] from rfl]
  rw [hbody, foldl_extend_eq_join]
  simp

theorem count_join {α : Type} [DecidableEq α] (L : List (List α)) (x : α) :
    L.join.count x = (L.map (fun l => l.count x)).sum := by
  induction L with
  | nil => simp
  | cons hd tl ih => simp [List.count_append, ih]

theorem count_ubFilter (as : List RecipientAssignment)
    (x : RecipientAssignment) (u b : Nat) :
    (ubFilter as u b).count x =
      if x.user_id = u ∧ x.batch_number = b then as.count x else 0 := by
  by_cases hc : x.user_id = u ∧ x.batch_number = b
  · rw [if_pos hc]
    unfold ubFilter
    apply List.count_filter
    simp [hc.1, hc.2]
  · rw [if_neg hc]
    rw [List.count_eq_zero]
    intro hmem
    unfold ubFilter at hmem
    rw [List.mem_filter] at hmem
    exact hc (by simpa using hmem.2)

theorem sum_map_ite (keys : List Nat) (t c : Nat) (hnd : keys.Nodup) :
    (keys.map (fun u => if t = u then c else 0)).sum =
      if t ∈ keys then c else 0 := by
  induction keys with
  | nil => simp
  | cons k ks ih =>
      simp only [List.nodup_cons] at hnd
      rw [List.map_cons, List.sum_cons, ih hnd.2]
      by_cases hk : t = k
      · subst hk
        rw [if_pos rfl, if_neg hnd.1, if_pos (List.mem_cons_self t ks)]
        simp
      · rw [if_neg hk]
        by_cases hm : t ∈ ks
        · rw [if_pos hm, if_pos (List.mem_cons_of_mem k hm)]
          simp
        · rw [if_neg hm, if_neg (by
            intro hc
            rcases List.mem_cons.mp hc with h | h
            · exact hk h
            · exact hm h)]

theorem count_waveOf (as : List RecipientAssignment) (x : RecipientAssignment)
    (b : Nat) :
    (waveOf as b).count x =
      if x.batch_number = b ∧
          x.user_id ∈ (groupUserBatches as).map Prod.fst
      then as.count x else 0 := by
  unfold waveOf
  rw [count_join, List.map_map]
  have hmap : ((groupUserBatches as).map
      ((fun l => l.count x) ∘ fun e => ubFilter as e.1 b)) =
      ((groupUserBatches as).map Prod.fst).map
        (fun u => if x.user_id = u ∧ x.batch_number = b
          then as.count x else 0) := by
    rw [List.map_map]
    apply List.map_congr_left
    intro e _
    exact count_ubFilter as x e.1 b
  rw [hmap]
  by_cases hb : x.batch_number = b
  · subst hb
    have hsimp : (((groupUserBatches as).map Prod.fst).map
        (fun u => if x.user_id = u ∧ x.batch_number = x.batch_number
          then as.count x else 0)) =
        (((groupUserBatches as).map Prod.fst).map
          (fun u => if x.user_id = u then as.count x else 0)) := by
      apply List.map_congr_left
      intro u _
      by_cases hu : x.user_id = u
      · rw [if_pos ⟨hu, rfl⟩, if_pos hu]
      · rw [if_neg (fun hc => hu hc.1), if_neg hu]
    rw [hsimp, sum_map_ite _ _ _ (groupUB_keys_nodup as)]
    by_cases hm : x.user_id ∈ (groupUserBatches as).map Prod.fst
    · rw [if_pos hm, if_pos ⟨rfl, hm⟩]
    · rw [if_neg hm, if_neg (fun hc => hm hc.2)]
  · have hz : (((groupUserBatches as).map Prod.fst).map
        (fun u => if x.user_id = u ∧ x.batch_number = b
          then as.count x else 0)).sum = 0 := by
      apply List.sum_eq_zero
      intro y hy
      rw [List.mem_map] at hy
      obtain ⟨u, -, hu⟩ := hy
      rw [← hu, if_neg (fun hc => hb hc.2)]
    rw [hz, if_neg (fun hc => hb hc.1)]

/-- `optimize_sending_order` drops and duplicates nothing: it preserves the
multiplicity of every assignment. -/
theorem optimize_perm_count (as : List RecipientAssignment)
    (x : RecipientAssignment) :
    (optimize_sending_order as).count x = as.count x := by
  rw [optimize_closed_form, count_join, List.map_map]
  have hmap : ((List.range (maxBatchesOf (groupUserBatches as))).map
      ((fun l => l.count x) ∘ waveOf as)) =
      ((List.range (maxBatchesOf (groupUserBatches as))).map
        (fun b => if x.batch_number = b ∧
            x.user_id ∈ (groupUserBatches as).map Prod.fst
          then as.count x else 0)) := by
    apply List.map_congr_left
    intro b _
    exact count_waveOf as x b
  rw [hmap]
  by_cases hx : x ∈ as
  · have hu : x.user_id ∈ (groupUserBatches as).map Prod.fst :=
      groupUB_keys_mem as x hx
    have hb : x.batch_number < maxBatchesOf (groupUserBatches as) :=
      batch_lt_maxBatches as x hx
    have hsimp : ((List.range (maxBatchesOf (groupUserBatches as))).map
        (fun b => if x.batch_number = b ∧
            x.user_id ∈ (groupUserBatches as).map Prod.fst
          then as.count x else 0)) =
        ((List.range (maxBatchesOf (groupUserBatches as))).map
          (fun b => if x.batch_number = b then as.count x else 0)) := by
      apply List.map_congr_left
      intro b _
      by_cases hc : x.batch_number = b
      · rw [if_pos ⟨hc, hu⟩, if_pos hc]
      · rw [if_neg (fun hcc => hc hcc.1), if_neg hc]
    rw [hsimp, sum_map_ite _ _ _ (List.nodup_range _)]
    rw [if_pos (List.mem_range.mpr hb)]
  · have hcnt : as.count x = 0 := by
      rw [List.count_eq_zero]
      exact hx
    rw [hcnt]
    apply List.sum_eq_zero
    intro y hy
    rw [List.mem_map] at hy
    obtain ⟨b, -, hb⟩ := hy
    rw [← hb]
    by_cases hc : x.batch_number = b ∧
        x.user_id ∈ (groupUserBatches as).map Prod.fst
    · rw [if_pos hc]
    · rw [if_neg hc]

/-- `optimize_sending_order` is a permutation of its input. -/
theorem optimize_perm (as : List RecipientAssignment) :
    (optimize_sending_order as).Perm as :=
  List.perm_iff_count.mpr (fun x => optimize_perm_count as x)

/-- The ordering the spec claims for the reordered assignments: lexicographic
by `(batch_number, identity_id)`.  (Definition follows the spec's words, for
comparison with `optimize_sending_order`.) -/
def specBatchUserLe (x y : RecipientAssignment) : Prop :=
  x.batch_number < y.batch_number ∨
    (x.batch_number = y.batch_number ∧ x.user_id ≤ y.user_id)

instance : DecidableRel specBatchUserLe := fun x y => by
  unfold specBatchUserLe
  infer_instance

/-- "Stable resort by `(batch_number, identity_id)`", following the spec's
words: a stable insertion sort under the lexicographic key. -/
def specStableSortByBatchUser (as : List RecipientAssignment) :
    List RecipientAssignment :=
  as.insertionSort specBatchUserLe

/-- C8 counterexample: with two batch-0 assignments whose identities appear
in the order 2, 1, the code keeps first-appearance order (identity 2 first)
while a stable resort by `(batch_number, identity_id)` puts identity 1
first, so `optimize_sending_order` is not that resort. -/
theorem C8_counterexample :
    optimize_sending_order
        [{ recipient_id := 1, user_id := 2, campaign_id := 7,
           batch_number := 0, priority := 0 },
         { recipient_id := 2, user_id := 1, campaign_id := 7,
           batch_number := 0, priority := 0 }] ≠
      specStableSortByBatchUser
        [{ recipient_id := 1, user_id := 2, campaign_id := 7,
           batch_number := 0, priority := 0 },
         { recipient_id := 2, user_id := 1, campaign_id := 7,
           batch_number := 0, priority := 0 }] ∧
    optimize_sending_order
        [{ recipient_id := 1, user_id := 2, campaign_id := 7,
           batch_number := 0, priority := 0 },
         { recipient_id := 2, user_id := 1, campaign_id := 7,
           batch_number := 0, priority := 0 }] =
        [{ recipient_id := 1, user_id := 2, campaign_id := 7,
           batch_number := 0, priority := 0 },
         { recipient_id := 2, user_id := 1, campaign_id := 7,
           batch_number := 0, priority := 0 }] ∧
    specStableSortByBatchUser
        [{ recipient_id := 1, user_id := 2, campaign_id := 7,
           batch_number := 0, priority := 0 },
         { recipient_id := 2, user_id := 1, campaign_id := 7,
           batch_number := 0, priority := 0 }] =
        [{ recipient_id := 2, user_id := 1, campaign_id := 7,
           batch_number := 0, priority := 0 },
         { recipient_id := 1, user_id := 2, campaign_id := 7,
           batch_number := 0, priority := 0 }] := by
  refine ⟨?_, by decide, by decide⟩
  decide

/-- C8 (amended): `optimize_sending_order` is a pure permutation of its
input (multiplicities preserved), grouped into waves of ascending batch
number; within a wave, identities appear in first-appearance order of the
input (not ascending identity id), and each identity's wave segment keeps
the input's original order. -/
theorem C8_wave_reorder (as : List RecipientAssignment) :
    optimize_sending_order as =
      ((List.range (maxBatchesOf (groupUserBatches as))).map
        (waveOf as)).join ∧
    (∀ b, ∀ x ∈ waveOf as b, x.batch_number = b) ∧
    (∀ x, (optimize_sending_order as).count x = as.count x) := by
  refine ⟨optimize_closed_form as, ?_, fun x => optimize_perm_count as x⟩
  intro b x hx
  unfold waveOf at hx
  rw [List.mem_join] at hx
  obtain ⟨l, hl, hxl⟩ := hx
  rw [List.mem_map] at hl
  obtain ⟨e, -, hle⟩ := hl
  rw [← hle] at hxl
  unfold ubFilter at hxl
  rw [List.mem_filter] at hxl
  have := hxl.2
  simp only [decide_eq_true_eq] at this
  exact this.2

/-! ### Capacity lemmas for the prepare flow -/

/-- The per-account contribution to the eligible-user gathering. -/
def accountActiveUsers (db : DB) (account_id : Nat) : List User :=
  match get_account db account_id with
  | some account =>
      if account.active then
        (get_account_users db account_id).filter
          (fun u => u.status == UserStatus.ACTIVE)
      else []
  | none => []

theorem activeUsersFor_eq_join (db : DB) (selected : List Nat) :
    activeUsersFor db selected =
      (selected.map (accountActiveUsers db)).join := by
  unfold activeUsersFor
  have hstep : (fun (acc : List User) account_id =>
      match get_account db account_id with
      | some account =>
          if account.active then
            acc ++ (get_account_users db account_id).filter
              (fun u => u.status == UserStatus.ACTIVE)
          else acc
      | none => acc) =
      (fun acc account_id => acc ++ accountActiveUsers db account_id) := by
    funext acc account_id
    unfold accountActiveUsers
    cases h : get_account db account_id with
    | none => simp
    | some account =>
        by_cases ha : account.active <;> simp [ha]
  rw [hstep, foldl_extend_eq_join]
  simp

/-- The per-account capacity term of `validate_account_capacity`. -/
def accountCapOf (db : DB) (account_id : Nat) : Int :=
  match get_account db account_id with
  | some account =>
      if account.active then
        ((get_account_users db account_id).filter
          (fun u => u.status == UserStatus.ACTIVE)).foldl
          (fun c u => c + userCapacity u) 0
      else 0
  | none => 0

theorem validate_total_capacity (db : DB) (selected : List Nat) (n : Nat) :
    (validate_account_capacity db selected n).total_capacity =
      selected.foldl (fun s account_id => s + accountCapOf db account_id) 0 := by
  unfold validate_account_capacity
  simp only
  suffices h : ∀ (i : Int) (d : List AccountCapacityDetail),
      (selected.foldl
        (fun (acc : Int × List AccountCapacityDetail) account_id =>
          match get_account db account_id with
          | none => acc
          | some account =>
              if account.active then
                let users := get_account_users db account_id
                let active_users :=
                  users.filter (fun u => u.status == UserStatus.ACTIVE)
                let account_capacity :=
                  active_users.foldl (fun c u => c + userCapacity u) 0
                (acc.1 + account_capacity,
                 acc.2 ++
                   [{ account_id := account_id
                      account_name := account.name
                      active_users := active_users.length
                      total_users := users.length
                      capacity := account_capacity }])
              else acc)
        (i, d)).1 =
      selected.foldl (fun s account_id => s + accountCapOf db account_id) i by
    exact h 0 []
  induction selected with
  | nil => intro i d; rfl
  | cons hd tl ih =>
      intro i d
      rw [List.foldl_cons, List.foldl_cons]
      cases h : get_account db hd with
      | none =>
          have hcap : accountCapOf db hd = 0 := by
            unfold accountCapOf
            rw [h]
          rw [hcap, add_zero]
          simp only [h]
          exact ih i d
      | some account =>
          by_cases ha : account.active
          · have hcap : accountCapOf db hd =
                ((get_account_users db hd).filter
                  (fun u => u.status == UserStatus.ACTIVE)).foldl
                  (fun c u => c + userCapacity u) 0 := by
              unfold accountCapOf
              rw [h]
              simp [ha]
            rw [hcap]
            simp only [h, ha, if_true]
            exact ih _ _
          · have hcap : accountCapOf db hd = 0 := by
              unfold accountCapOf
              rw [h]
              simp [ha]
            rw [hcap, add_zero]
            simp only [h, ha, if_false]
            exact ih i d

theorem foldl_add_zero_of_all_zero (f : Nat → Int) (selected : List Nat) :
    ∀ i : Int, (∀ aid ∈ selected, f aid = 0) →
      selected.foldl (fun s aid => s + f aid) i = i := by
  induction selected with
  | nil => intro i _; rfl
  | cons hd tl ih =>
      intro i hz
      rw [List.foldl_cons, hz hd (List.mem_cons_self hd tl), add_zero]
      exact ih i (fun aid ha => hz aid (List.mem_cons_of_mem hd ha))

theorem capacity_zero_of_no_eligible (db : DB) (selected : List Nat) (n : Nat)
    (hK : activeUsersFor db selected = []) :
    (validate_account_capacity db selected n).total_capacity = 0 := by
  rw [validate_total_capacity]
  rw [activeUsersFor_eq_join] at hK
  have hall : ∀ aid ∈ selected, accountActiveUsers db aid = [] := by
    intro aid haid
    have := List.join_eq_nil.mp hK
    exact this _ (List.mem_map_of_mem (accountActiveUsers db) haid)
  have hcap : ∀ aid ∈ selected, accountCapOf db aid = 0 := by
    intro aid haid
    have hempty := hall aid haid
    unfold accountCapOf
    unfold accountActiveUsers at hempty
    cases h : get_account db aid with
    | none => rfl
    | some account =>
        rw [h] at hempty
        by_cases ha : account.active
        · simp only [ha, if_true] at hempty ⊢
          rw [hempty]
          rfl
        · simp [ha]
  exact foldl_add_zero_of_all_zero (accountCapOf db) selected 0 hcap

/-- An active account with no users at all: the eligible identity set is
empty. -/
def dbW0 : DB := ⟨[⟨1, "acme", true, 2000, 250⟩], []⟩

/-- A single pending recipient. -/
def recipsOne : List Recipient := [⟨1, "r@x.io", "R", [], .PENDING, none⟩]

/-- C6 counterexample: with zero eligible identities and one recipient, the
prepare operation fails with the capacity error, not with the
NoEligibleIdentities error — the capacity check runs before eligibility is
ever examined. -/
theorem C6_counterexample :
    activeUsersFor dbW0 [1] = [] ∧
    (prepare_campaign_for_sending dbW0 1
        ⟨.DRAFT, recipsOne, []⟩ [1]).outcome = .err "Insufficient capacity" ∧
    (prepare_campaign_for_sending dbW0 1
        ⟨.DRAFT, recipsOne, []⟩ [1]).outcome ≠
      .err "No active users available for sending" := by
  refine ⟨by decide, by decide, by decide⟩

/-- C6 (amended): with an empty eligible identity set the planner function
itself always fails with the NoEligibleIdentities message, for every
recipient list; but the prepare operation checks capacity first, so a Draft
campaign with at least one recipient fails with the InsufficientCapacity
message instead — the NoEligibleIdentities error never surfaces from
prepare in that situation. -/
theorem C6_empty_eligible_plan (db : DB) (recipients : List Recipient)
    (campaign_id : Nat) (c : PrepInput) (selected : List Nat)
    (hK : activeUsersFor db selected = [])
    (hst : c.status = .DRAFT) (hrec : c.recipients ≠ []) :
    calculate_optimal_distribution db recipients selected =
      .error "No active users available for sending" ∧
    (prepare_campaign_for_sending db campaign_id c selected).outcome =
      .err "Insufficient capacity" := by
  constructor
  · unfold calculate_optimal_distribution
    rw [hK]
    rfl
  · have hre : c.recipients.isEmpty = false := by
      cases h : c.recipients with
      | nil => exact absurd h hrec
      | cons a l => rfl
    have hcap : (validate_account_capacity db selected
        c.recipients.length).sufficient_capacity = false := by
      have htot := capacity_zero_of_no_eligible db selected
        c.recipients.length hK
      have hlen : 0 < c.recipients.length := by
        cases h : c.recipients with
        | nil => exact absurd h hrec
        | cons a l => simp
      rcases hsuff : (validate_account_capacity db selected
          c.recipients.length).sufficient_capacity with _ | _
      · rfl
      · exfalso
        have : decide ((c.recipients.length : Int) ≤
            (validate_account_capacity db selected
              c.recipients.length).total_capacity) = true := by
          rw [← hsuff]
          rfl
        rw [htot] at this
        simp only [decide_eq_true_eq] at this
        omega
    unfold prepare_campaign_for_sending
    rw [if_neg (by rw [hst]; simp)]
    simp only [hre, hcap, Bool.false_eq_true, if_false, if_true]

/-- Witness for the amended C6 at a concrete empty identity pool. -/
theorem C6_empty_eligible_plan_witness :
    activeUsersFor dbW0 [1] = [] ∧
    (⟨.DRAFT, recipsOne, []⟩ : PrepInput).status = .DRAFT ∧
    (⟨.DRAFT, recipsOne, []⟩ : PrepInput).recipients ≠ [] ∧
    (calculate_optimal_distribution dbW0 recipsOne [1] =
        .error "No active users available for sending" ∧
      (prepare_campaign_for_sending dbW0 2
          ⟨.DRAFT, recipsOne, []⟩ [1]).outcome =
        .err "Insufficient capacity") :=
  ⟨by decide, rfl, by decide,
    C6_empty_eligible_plan dbW0 recipsOne 2 ⟨.DRAFT, recipsOne, []⟩ [1]
      (by decide) rfl (by decide)⟩

/-- C4: evaluating the prepare flow at the failing input — a Draft campaign
with one recipient and a selected account with zero capacity — shows the
operation failing with the InsufficientCapacity message while leaving the
campaign in `Preparing`, not reverting it to `Draft` (so the campaign can
never be re-prepared); no assignment rows are created. -/
theorem C4_no_rollback_on_insufficient_capacity :
    (prepare_campaign_for_sending dbW0 1
        ⟨.DRAFT, recipsOne, []⟩ [1]).outcome = .err "Insufficient capacity" ∧
    (prepare_campaign_for_sending dbW0 1
        ⟨.DRAFT, recipsOne, []⟩ [1]).status = .PREPARING ∧
    (prepare_campaign_for_sending dbW0 1
        ⟨.DRAFT, recipsOne, []⟩ [1]).status ≠ .DRAFT ∧
    (prepare_campaign_for_sending dbW0 1
        ⟨.DRAFT, recipsOne, []⟩ [1]).assignments = [] ∧
    (prepare_campaign_for_sending dbW0 1
        ⟨(prepare_campaign_for_sending dbW0 1
            ⟨.DRAFT, recipsOne, []⟩ [1]).status, recipsOne, []⟩ [1]).outcome =
      .err "Campaign must be in Draft status" := by
  refine ⟨by decide, by decide, by decide, by decide, by decide⟩

/-! ### Materialization lemmas: the assignment rows map recipients exactly -/

theorem foldl_distStep_fst (l : List (Nat × User)) (b e : Nat)
    (d : List (String × UserDistInfo)) (u : List (String × Nat)) :
    (l.foldl (distStep b e) (d, u)).1 =
      l.foldl (fun dd iu => dictSet dd iu.2.email (distInfoOf b e iu)) d := by
  induction l generalizing d u with
  | nil => rfl
  | cons hd tl ih => simp only [List.foldl_cons, distStep, ih]

/-- Under distinct emails, the `distribution` dict is the enumeration-ordered
list of per-user info entries. -/
theorem distribution_eq (db : DB) (recipients : List Recipient)
    (selected_accounts : List Nat)
    (hnd : ((activeUsersFor db selected_accounts).map
      (fun u => u.email)).Nodup) :
    (distPlanOf db recipients selected_accounts).distribution =
      (activeUsersFor db selected_accounts).enum.map
        (fun iu => (iu.2.email,
          distInfoOf
            (recipients.length / (activeUsersFor db selected_accounts).length)
            (recipients.length % (activeUsersFor db selected_accounts).length)
            iu)) := by
  unfold distPlanOf
  simp only
  rw [foldl_distStep_fst]
  have hkey : ((activeUsersFor db selected_accounts).enum.map
      (fun iu : Nat × User => iu.2.email)).Nodup := by
    have heq : (activeUsersFor db selected_accounts).enum.map
        (fun iu : Nat × User => iu.2.email) =
        ((activeUsersFor db selected_accounts).enum.map Prod.snd).map
          (fun u => u.email) := by
      rw [List.map_map]
      rfl
    rw [heq, List.enum_map_snd]
    exact hnd
  have hfold := foldl_dictSet_fresh (fun iu : Nat × User => iu.2.email)
    (fun iu : Nat × User =>
      distInfoOf
        (recipients.length / (activeUsersFor db selected_accounts).length)
        (recipients.length % (activeUsersFor db selected_accounts).length) iu)
    (activeUsersFor db selected_accounts).enum [] hkey (by intro x _; simp)
  rw [hfold]
  simp

theorem loads_sum (N K : Nat) (hK : 0 < K) :
    ((List.range K).map
      (fun i => N / K + if i < N % K then 1 else 0)).sum = N := by
  have hmodK : N % K ≤ K := le_of_lt (Nat.mod_lt _ hK)
  rw [loads_closed_form K (N % K) (N / K) hmodK]
  rw [List.sum_append, sum_replicate_nat, sum_replicate_nat]
  calc (N % K) * (N / K + 1) + (K - N % K) * (N / K)
      = (N % K + (K - N % K)) * (N / K) + N % K := by ring
    _ = K * (N / K) + N % K := by rw [Nat.add_sub_cancel' hmodK]
    _ = N := Nat.div_add_mod N K

/-- The assigned counts of the distribution dict sum to the recipient
count. -/
theorem dist_counts_sum (db : DB) (recipients : List Recipient)
    (selected_accounts : List Nat)
    (hK : activeUsersFor db selected_accounts ≠ [])
    (hnd : ((activeUsersFor db selected_accounts).map
      (fun u => u.email)).Nodup) :
    ((distPlanOf db recipients selected_accounts).distribution.map
      (fun e => e.2.assigned_count)).sum = recipients.length := by
  rw [distribution_eq db recipients selected_accounts hnd]
  rw [List.map_map]
  have hKpos : 0 < (activeUsersFor db selected_accounts).length := by
    cases h : activeUsersFor db selected_accounts with
    | nil => exact absurd h hK
    | cons a l => simp
  have hmap : ((activeUsersFor db selected_accounts).enum.map
      ((fun e : String × UserDistInfo => e.2.assigned_count) ∘
        (fun iu : Nat × User => (iu.2.email,
          distInfoOf
            (recipients.length / (activeUsersFor db selected_accounts).length)
            (recipients.length % (activeUsersFor db selected_accounts).length)
            iu)))) =
      (List.range (activeUsersFor db selected_accounts).length).map
        (fun i =>
          recipients.length / (activeUsersFor db selected_accounts).length +
            if i < recipients.length %
                (activeUsersFor db selected_accounts).length
            then 1 else 0) := by
    have h1 : ((fun e : String × UserDistInfo => e.2.assigned_count) ∘
        (fun iu : Nat × User => (iu.2.email,
          distInfoOf
            (recipients.length / (activeUsersFor db selected_accounts).length)
            (recipients.length % (activeUsersFor db selected_accounts).length)
            iu))) =
        ((fun i =>
          recipients.length / (activeUsersFor db selected_accounts).length +
            if i < recipients.length %
                (activeUsersFor db selected_accounts).length
            then 1 else 0) ∘ Prod.fst) := rfl
    rw [h1, ← List.map_map, List.enum_map_fst]
  rw [hmap, loads_sum _ _ hKpos]

theorem assignForUser_spec (campaign_id user_id : Nat)
    (recipients : List Recipient) :
    ∀ (cnt : Nat) (asgs : List RecipientAssignment) (idx : Nat),
      idx + cnt ≤ recipients.length →
      ((assignForUser campaign_id user_id recipients cnt (asgs, idx)).1.map
          (fun a => a.recipient_id) =
        asgs.map (fun a => a.recipient_id) ++
          ((recipients.map (fun r => r.id)).drop idx).take cnt) ∧
      (assignForUser campaign_id user_id recipients cnt (asgs, idx)).2 =
        idx + cnt := by
  intro cnt
  induction cnt with
  | zero =>
      intro asgs idx h
      constructor
      · simp [assignForUser]
      · simp [assignForUser]
  | succ n ih =>
      intro asgs idx h
      have hn : idx + n ≤ recipients.length := by omega
      obtain ⟨ih1, ih2⟩ := ih asgs idx hn
      have hlt : idx + n < recipients.length := by omega
      have hstep : assignForUser campaign_id user_id recipients (n + 1)
          (asgs, idx) =
          (let acc := assignForUser campaign_id user_id recipients n
            (asgs, idx)
          match recipients.get? acc.2 with
          | some recipient =>
              (acc.1 ++
                [{ recipient_id := recipient.id
                   user_id := user_id
                   campaign_id := campaign_id
                   batch_number := n / 25
                   priority := n % 25 }],
               acc.2 + 1)
          | none => acc) := by
        unfold assignForUser
        rw [List.range_succ, List.foldl_append, List.foldl_cons,
          List.foldl_nil]
      rw [hstep]
      simp only [ih2]
      have hget : recipients.get? (idx + n) =
          some (recipients.get ⟨idx + n, hlt⟩) := List.get?_eq_get hlt
      rw [hget]
      simp only
      constructor
      · rw [List.map_append, ih1]
        have htake : ((recipients.map (fun r => r.id)).drop idx).take (n + 1) =
            ((recipients.map (fun r => r.id)).drop idx).take n ++
              [(recipients.get ⟨idx + n, hlt⟩).id] := by
          rw [List.take_succ]
          congr 1
          rw [List.getElem?_drop]
          rw [← List.get?_eq_getElem?, List.get?_map, hget]
          rfl
        rw [htake]
        simp
      · rfl

theorem create_fold_spec (campaign_id : Nat) (recipients : List Recipient) :
    ∀ (dist : List (String × UserDistInfo))
      (asgs : List RecipientAssignment) (idx : Nat),
      idx + (dist.map (fun e => e.2.assigned_count)).sum ≤
        recipients.length →
      ((dist.foldl
          (fun acc e =>
            assignForUser campaign_id e.2.user_id recipients
              e.2.assigned_count acc)
          (asgs, idx)).1.map (fun a => a.recipient_id) =
        asgs.map (fun a => a.recipient_id) ++
          ((recipients.map (fun r => r.id)).drop idx).take
            ((dist.map (fun e => e.2.assigned_count)).sum)) ∧
      (dist.foldl
          (fun acc e =>
            assignForUser campaign_id e.2.user_id recipients
              e.2.assigned_count acc)
          (asgs, idx)).2 =
        idx + (dist.map (fun e => e.2.assigned_count)).sum := by
  intro dist
  induction dist with
  | nil =>
      intro asgs idx h
      constructor
      · simp
      · simp
  | cons e rest ih =>
      intro asgs idx h
      rw [List.map_cons, List.sum_cons] at h
      have hcnt : idx + e.2.assigned_count ≤ recipients.length := by omega
      obtain ⟨h1, h2⟩ := assignForUser_spec campaign_id e.2.user_id recipients
        e.2.assigned_count asgs idx hcnt
      rw [List.foldl_cons]
      have hpair : assignForUser campaign_id e.2.user_id recipients
          e.2.assigned_count (asgs, idx) =
          ((assignForUser campaign_id e.2.user_id recipients
            e.2.assigned_count (asgs, idx)).1, idx + e.2.assigned_count) := by
        rw [← h2]
      rw [hpair]
      have hrest : (idx + e.2.assigned_count) +
          (rest.map (fun e => e.2.assigned_count)).sum ≤
          recipients.length := by omega
      obtain ⟨ihr1, ihr2⟩ := ih ((assignForUser campaign_id e.2.user_id
        recipients e.2.assigned_count (asgs, idx)).1)
        (idx + e.2.assigned_count) hrest
      constructor
      · rw [ihr1, h1]
        rw [List.map_cons, List.sum_cons]
        rw [List.append_assoc]
        congr 1
        rw [List.take_add]
        congr 1
        rw [List.drop_drop]
      · rw [ihr2, List.map_cons, List.sum_cons]
        omega

/-- When the distribution's assigned counts sum to the number of recipients,
the materialized assignment rows carry exactly the recipient ids, in
order — each recipient exactly once. -/
theorem create_rids (campaign_id : Nat) (recipients : List Recipient)
    (dist : List (String × UserDistInfo))
    (hsum : (dist.map (fun e => e.2.assigned_count)).sum =
      recipients.length) :
    (create_recipient_assignments campaign_id recipients dist).map
        (fun a => a.recipient_id) =
      recipients.map (fun r => r.id) := by
  unfold create_recipient_assignments
  obtain ⟨h1, -⟩ := create_fold_spec campaign_id recipients dist [] 0
    (by omega)
  rw [h1, hsum]
  simp only [List.map_nil, List.nil_append, List.drop_zero]
  have hlen : recipients.length = (recipients.map (fun r => r.id)).length := by
    simp
  rw [hlen, List.take_length]

/-- The prepare flow for a Draft campaign, with the status guard
discharged. -/
theorem prepare_draft_eq (db : DB) (campaign_id : Nat)
    (recipients : List Recipient) (old : List RecipientAssignment)
    (selected : List Nat) :
    prepare_campaign_for_sending db campaign_id
        ⟨.DRAFT, recipients, old⟩ selected =
      if recipients.isEmpty = true then
        ⟨.PREPARING, old, .err "No recipients found"⟩
      else if (validate_account_capacity db selected
          recipients.length).sufficient_capacity = false then
        ⟨.PREPARING, old, .err "Insufficient capacity"⟩
      else
        match calculate_optimal_distribution db recipients selected with
        | .error msg => ⟨.DRAFT, old, .err msg⟩
        | .ok distribution =>
            ⟨.READY,
             optimize_sending_order
               (create_recipient_assignments campaign_id recipients
                 distribution.distribution),
             .ok recipients.length distribution.total_users
               distribution.assignments_per_user⟩ := by
  unfold prepare_campaign_for_sending
  rw [if_neg (by simp)]

/-- C5 counterexample: after a successful first Prepare the campaign is
`Ready`, and a second Prepare call fails with the Draft-status guard, leaving
status and assignments untouched — it does not succeed as the claim
states. -/
theorem C5_counterexample :
    (prepare_campaign_for_sending dbW 1
        ⟨.DRAFT, recipsOne, []⟩ [1]).status = .READY ∧
    (prepare_campaign_for_sending dbW 1
        ⟨(prepare_campaign_for_sending dbW 1
            ⟨.DRAFT, recipsOne, []⟩ [1]).status, recipsOne,
         (prepare_campaign_for_sending dbW 1
            ⟨.DRAFT, recipsOne, []⟩ [1]).assignments⟩ [1]).outcome =
      .err "Campaign must be in Draft status" ∧
    (prepare_campaign_for_sending dbW 1
        ⟨(prepare_campaign_for_sending dbW 1
            ⟨.DRAFT, recipsOne, []⟩ [1]).status, recipsOne,
         (prepare_campaign_for_sending dbW 1
            ⟨.DRAFT, recipsOne, []⟩ [1]).assignments⟩ [1]).status = .READY ∧
    (prepare_campaign_for_sending dbW 1
        ⟨(prepare_campaign_for_sending dbW 1
            ⟨.DRAFT, recipsOne, []⟩ [1]).status, recipsOne,
         (prepare_campaign_for_sending dbW 1
            ⟨.DRAFT, recipsOne, []⟩ [1]).assignments⟩ [1]).assignments =
      (prepare_campaign_for_sending dbW 1
        ⟨.DRAFT, recipsOne, []⟩ [1]).assignments := by
  refine ⟨by decide, by decide, by decide, by decide⟩

/-- C5 (amended): a second Prepare call on an already prepared (Ready)
campaign fails with the Draft-status guard and changes nothing.  From the
Draft state, a successful prepare fully replaces any prior assignment rows:
its result does not depend on them at all, and (with distinct identity
emails and distinct recipient ids) the new assignment set maps each current
recipient exactly once — repeated prepares from Draft converge to the same
assignment set with no duplication. -/
theorem C5_reprepare_replaces (db : DB) (campaign_id : Nat)
    (recipients : List Recipient) (selected : List Nat)
    (old1 old2 : List RecipientAssignment)
    (hnd : ((activeUsersFor db selected).map (fun u => u.email)).Nodup)
    (hrid : (recipients.map (fun r => r.id)).Nodup) :
    (prepare_campaign_for_sending db campaign_id
        ⟨.DRAFT, recipients, old1⟩ selected).status = .READY →
      (prepare_campaign_for_sending db campaign_id
          ⟨.DRAFT, recipients, old2⟩ selected =
        prepare_campaign_for_sending db campaign_id
          ⟨.DRAFT, recipients, old1⟩ selected) ∧
      ((prepare_campaign_for_sending db campaign_id
          ⟨.DRAFT, recipients, old1⟩ selected).assignments.map
            (fun a => a.recipient_id)).Perm
        (recipients.map (fun r => r.id)) ∧
      ((prepare_campaign_for_sending db campaign_id
          ⟨.DRAFT, recipients, old1⟩ selected).assignments.map
            (fun a => a.recipient_id)).Nodup := by
  intro h
  rw [prepare_draft_eq] at h
  by_cases hre : recipients.isEmpty = true
  · rw [if_pos hre] at h
    exact absurd h (by simp)
  · rw [if_neg hre] at h
    by_cases hcap : (validate_account_capacity db selected
        recipients.length).sufficient_capacity = false
    · rw [if_pos hcap] at h
      exact absurd h (by simp)
    · rw [if_neg hcap] at h
      cases hcalc : calculate_optimal_distribution db recipients selected with
      | error msg =>
          rw [hcalc] at h
          exact absurd h (by simp)
      | ok distribution =>
          have hKne : activeUsersFor db selected ≠ [] := by
            intro hempty
            unfold calculate_optimal_distribution at hcalc
            rw [hempty] at hcalc
            simp at hcalc
          have hne : (activeUsersFor db selected).isEmpty = false := by
            cases hu : activeUsersFor db selected with
            | nil => exact absurd hu hKne
            | cons a l => rfl
          have hdist : distribution = distPlanOf db recipients selected := by
            have h2 := calc_dist_eq_ok db recipients selected hne
            rw [hcalc] at h2
            injection h2
          have hassign : (prepare_campaign_for_sending db campaign_id
              ⟨.DRAFT, recipients, old1⟩ selected).assignments =
              optimize_sending_order
                (create_recipient_assignments campaign_id recipients
                  distribution.distribution) := by
            rw [prepare_draft_eq db campaign_id recipients old1 selected,
              if_neg hre, if_neg hcap, hcalc]
          have hsum := dist_counts_sum db recipients selected hKne hnd
          have hrids := create_rids campaign_id recipients
            (distPlanOf db recipients selected).distribution hsum
          have hperm :=
            (optimize_perm (create_recipient_assignments campaign_id
              recipients
              (distPlanOf db recipients selected).distribution)).map
              (fun a => a.recipient_id)
          rw [hrids] at hperm
          refine ⟨?_, ?_, ?_⟩
          · rw [prepare_draft_eq db campaign_id recipients old2 selected,
              prepare_draft_eq db campaign_id recipients old1 selected,
              if_neg hre, if_neg hre, if_neg hcap, if_neg hcap, hcalc]
          · rw [hassign, hdist]
            exact hperm
          · rw [hassign, hdist]
            exact hperm.nodup_iff.mpr hrid

/-- Witness for the amended C5 at a concrete database: three eligible
identities, one recipient, stale assignment rows replaced. -/
theorem C5_reprepare_replaces_witness :
    ((activeUsersFor dbW [1]).map (fun u => u.email)).Nodup ∧
    (recipsOne.map (fun r => r.id)).Nodup ∧
    (prepare_campaign_for_sending dbW 1
        ⟨.DRAFT, recipsOne, [⟨9, 9, 1, 0, 0⟩]⟩ [1]).status = .READY ∧
    ((prepare_campaign_for_sending dbW 1
        ⟨.DRAFT, recipsOne, []⟩ [1] =
      prepare_campaign_for_sending dbW 1
        ⟨.DRAFT, recipsOne, [⟨9, 9, 1, 0, 0⟩]⟩ [1]) ∧
     ((prepare_campaign_for_sending dbW 1
        ⟨.DRAFT, recipsOne, [⟨9, 9, 1, 0, 0⟩]⟩ [1]).assignments.map
          (fun a => a.recipient_id)).Perm
       (recipsOne.map (fun r => r.id)) ∧
     ((prepare_campaign_for_sending dbW 1
        ⟨.DRAFT, recipsOne, [⟨9, 9, 1, 0, 0⟩]⟩ [1]).assignments.map
          (fun a => a.recipient_id)).Nodup) :=
  ⟨by decide, by decide, by decide,
    C5_reprepare_replaces dbW 1 recipsOne [1] [⟨9, 9, 1, 0, 0⟩] []
      (by decide) (by decide) (by decide)⟩

/-! ### Dispatch engine (`utils/ultra_fast_sender.py`)

The SQLAlchemy session is a record of accounts, users and recipients; the
Gmail transport is an outcome environment mapping a recipient id to the
result of the send call (success flag, and the `retry` classification the
service attaches to HTTP 429/5xx errors).  Message construction reads only
campaign content and does not influence control flow, so the embedded
senders carry the status-relevant state. -/

/-- Outcome of one transport send, as classified by
`gmail_service.send_email_async`. -/
structure SendOutcome where
  success : Bool
  retry : Bool
deriving DecidableEq, Repr

/-- The database state the dispatch engine reads and writes. -/
structure SendDB where
  accounts : List Account
  users : List User
  recipients : List Recipient
deriving DecidableEq, Repr

/-- `crud.update_recipient_status` (the row with the matching id gets the
new status; the error column is written only when a message is supplied). -/
def update_recipient_status (db : SendDB) (recipient_id : Nat)
    (st : RecipientStatus) (err : Option String) : SendDB :=
  { db with recipients := db.recipients.map (fun r =>
      if r.id == recipient_id then
        { r with status := st,
                 last_error := match err with
                   | some e => some e
                   | none => r.last_error }
      else r) }

/-- `crud.increment_user_sent_count`: unconditional increment of both
counters — there is no quota comparison anywhere in it. -/
def increment_user_sent_count (db : SendDB) (user_id : Nat) : SendDB :=
  { db with users := db.users.map (fun u =>
      if u.id == user_id then
        { u with daily_sent_count := u.daily_sent_count + 1
                 hourly_sent_count := u.hourly_sent_count + 1 }
      else u) }

/-- `crud.update_user_status`. -/
def update_user_status (db : SendDB) (user_id : Nat) (st : UserStatus)
    (err : Option String) : SendDB :=
  { db with users := db.users.map (fun u =>
      if u.id == user_id then
        { u with status := st,
                 last_error := match err with
                   | some e => some e
                   | none => u.last_error }
      else u) }

/-- One result-processing step of `UltraFastSender.send_user_batch`: on
success the recipient is marked Sent and the user's counters incremented
(with no capacity check); on failure the recipient is marked Failed and, if
the transport did not classify the error as retryable, the user is marked
`Error` (never `RateLimited`). -/
def processResult (user_id : Nat) (acc : SendDB × Nat × Nat)
    (res : Nat × SendOutcome) : SendDB × Nat × Nat :=
  if res.2.success then
    (increment_user_sent_count
      (update_recipient_status acc.1 res.1 RecipientStatus.SENT none) user_id,
     acc.2.1 + 1, acc.2.2)
  else
    let d2 := update_recipient_status acc.1 res.1 RecipientStatus.FAILED
      (some "send error")
    if res.2.retry then (d2, acc.2.1, acc.2.2 + 1)
    else (update_user_status d2 user_id UserStatus.ERROR (some "send error"),
      acc.2.1, acc.2.2 + 1)

/-- `UltraFastSender.send_user_batch`: returns the updated database and the
(sent, failed) counters for this user's assignments.  Assignments whose
recipient row is missing are silently dropped from the batch; a missing user
or account fails the whole batch without touching the database. -/
def send_user_batch (db : SendDB) (user_id : Nat)
    (assignments : List RecipientAssignment) (env : Nat → SendOutcome) :
    SendDB × Nat × Nat :=
  match db.users.find? (fun u => u.id == user_id) with
  | none => (db, 0, assignments.length)
  | some user =>
      match db.accounts.find? (fun a => a.id == user.account_id) with
      | none => (db, 0, assignments.length)
      | some _account =>
          let email_batch := assignments.filterMap (fun a =>
            (db.recipients.find? (fun r => r.id == a.recipient_id)).map
              (fun r => (a, r)))
          let results := email_batch.map (fun p => (p.2.id, env p.2.id))
          results.foldl (processResult user_id) (db, 0, 0)

/-- The dict returned by the ultra-fast senders (timing fields omitted). -/
structure UltraResult where
  success : Bool
  error : Option String
  total_sent : Nat
  total_failed : Nat
deriving DecidableEq, Repr

/-- The `user_assignments` grouping of `send_campaign_ultra_fast`. -/
def groupByUser (assignments : List RecipientAssignment) :
    List (Nat × List RecipientAssignment) :=
  assignments.foldl (fun acc a => addToGroup a.user_id acc a) []

/-- `UltraFastSender.send_campaign_ultra_fast`: guards on `Ready`, commits
`Sending`, returns an error dict (leaving the committed `Sending` status)
when no assignments exist, otherwise runs every user's batch and classifies:
`Completed` when no failure, else `Failed` exactly when nothing was sent,
else `Completed`.  The per-user tasks run over a shared session; the
embedding applies them in group order. -/
def send_campaign_ultra_fast (db : SendDB) (status : CampaignStatus)
    (assignments : List RecipientAssignment) (env : Nat → SendOutcome) :
    SendDB × CampaignStatus × UltraResult :=
  if status ≠ CampaignStatus.READY then
    (db, status, ⟨false, some "Campaign not ready for sending", 0, 0⟩)
  else
    if assignments.isEmpty then
      (db, CampaignStatus.SENDING, ⟨false, some "No assignments found", 0, 0⟩)
    else
      let user_assignments := groupByUser assignments
      let acc := user_assignments.foldl
        (fun (acc : SendDB × Nat × Nat) e =>
          let r := send_user_batch acc.1 e.1 e.2 env
          (r.1, acc.2.1 + r.2.1, acc.2.2 + r.2.2))
        (db, 0, 0)
      let total_sent := acc.2.1
      let total_failed := acc.2.2
      let final_status :=
        if total_failed == 0 then CampaignStatus.COMPLETED
        else if total_sent == 0 then CampaignStatus.FAILED
        else CampaignStatus.COMPLETED
      (acc.1, final_status, ⟨true, none, total_sent, total_failed⟩)

/-- `ThreadedUltraFastSender.send_single_email_threaded`: a missing user
raises before the `all([...])` check (the account lookup dereferences it), so
the exception path marks the recipient Failed; with the user present but the
recipient or account missing, the "Missing data" return touches nothing; an
unsuccessful transport call marks the recipient Failed; success marks it
Sent and increments the user's counters. -/
def send_single_email_threaded (db : SendDB) (a : RecipientAssignment)
    (env : Nat → SendOutcome) : SendDB × Bool :=
  match db.users.find? (fun u => u.id == a.user_id) with
  | none => (update_recipient_status db a.recipient_id RecipientStatus.FAILED
      (some "send error"), false)
  | some user =>
      match db.recipients.find? (fun r => r.id == a.recipient_id) with
      | none => (db, false)
      | some recipient =>
          match db.accounts.find? (fun x => x.id == user.account_id) with
          | none => (db, false)
          | some _account =>
              if (env recipient.id).success then
                (increment_user_sent_count
                  (update_recipient_status db recipient.id
                    RecipientStatus.SENT none) user.id, true)
              else
                (update_recipient_status db recipient.id
                  RecipientStatus.FAILED (some "send error"), false)

/-- `ThreadedUltraFastSender.send_campaign_threaded`: guards on `Ready`,
commits `Sending`, runs every assignment, and then sets the campaign status
to `Completed` unconditionally — the failure counter never influences the
final status on the non-exception path. -/
def send_campaign_threaded (db : SendDB) (status : CampaignStatus)
    (assignments : List RecipientAssignment) (env : Nat → SendOutcome) :
    SendDB × CampaignStatus × UltraResult :=
  if status ≠ CampaignStatus.READY then
    (db, status, ⟨false, some "Campaign not ready for sending", 0, 0⟩)
  else
    let acc := assignments.foldl
      (fun (acc : SendDB × Nat × Nat) a =>
        let r := send_single_email_threaded acc.1 a env
        if r.2 then (r.1, acc.2.1 + 1, acc.2.2)
        else (r.1, acc.2.1, acc.2.2 + 1))
      (db, 0, 0)
    (acc.1, CampaignStatus.COMPLETED, ⟨true, none, acc.2.1, acc.2.2⟩)

/-! ### HTTP endpoints (`api/v1/endpoints/campaigns.py`) -/

/-- The observable outcome of an endpoint call. -/
inductive ApiResult where
  | ok (msg : String)
  | httpError (code : Nat) (detail : String)
deriving DecidableEq, Repr

/-- `start_campaign` (`POST /campaigns/{id}/send`): requires **Draft** (not
Ready) and transitions Draft → Sending; any other state is rejected with a
fixed message that names neither the current nor the requested state. -/
def start_campaign (status : CampaignStatus) : CampaignStatus × ApiResult :=
  if status ≠ CampaignStatus.DRAFT then
    (status,
     .httpError 400 "Campaign must be in Draft status to start sending")
  else
    (CampaignStatus.SENDING, .ok "Campaign sending started")

/-- `send_campaign_ultra_fast` endpoint (`POST /send-ultra-fast`): requires
Ready; scheduling the background sender does not itself change the status
(the sender flips Ready → Sending when it starts). -/
def send_ultra_fast_endpoint (status : CampaignStatus) :
    CampaignStatus × ApiResult :=
  if status ≠ CampaignStatus.READY then
    (status,
     .httpError 400 "Campaign must be prepared (READY status) before sending")
  else
    (status, .ok "Ultra-fast sending started")

/-- `pause_campaign` (`POST /campaigns/{id}/pause`): requires Sending. -/
def pause_campaign (status : CampaignStatus) : CampaignStatus × ApiResult :=
  if status ≠ CampaignStatus.SENDING then
    (status, .httpError 400 "Campaign must be sending to pause")
  else
    (CampaignStatus.PAUSED, .ok "Campaign paused")

/-- C7 counterexample: the send endpoint called on a **Ready** campaign
fails (with a fixed message that names no states), while called on a
**Draft** campaign it succeeds and transitions Draft → Sending — the exact
opposite of the claimed Ready → Sending transition with
InvalidStateTransition elsewhere. -/
theorem C7_counterexample :
    start_campaign .READY =
      (.READY,
       .httpError 400 "Campaign must be in Draft status to start sending") ∧
    start_campaign .DRAFT = (.SENDING, .ok "Campaign sending started") := by
  refine ⟨by decide, by decide⟩

/-- C7 (amended): the plain send endpoint transitions Draft → Sending and
rejects every other state with HTTP 400 and the fixed message "Campaign must
be in Draft status to start sending" (naming neither state), leaving the
status unchanged; the ultra-fast endpoint requires Ready (fixed message
"Campaign must be prepared (READY status) before sending", status
unchanged), and the background senders themselves reject a non-Ready
campaign with an error dict and no state change. -/
theorem C7_send_guards (s : CampaignStatus) (db : SendDB)
    (assignments : List RecipientAssignment) (env : Nat → SendOutcome) :
    (s ≠ CampaignStatus.DRAFT →
      start_campaign s =
        (s, .httpError 400
          "Campaign must be in Draft status to start sending")) ∧
    start_campaign CampaignStatus.DRAFT =
      (CampaignStatus.SENDING, .ok "Campaign sending started") ∧
    (s ≠ CampaignStatus.READY →
      send_ultra_fast_endpoint s =
        (s, .httpError 400
          "Campaign must be prepared (READY status) before sending")) ∧
    (s ≠ CampaignStatus.READY →
      send_campaign_ultra_fast db s assignments env =
        (db, s, ⟨false, some "Campaign not ready for sending", 0, 0⟩)) ∧
    (s ≠ CampaignStatus.READY →
      send_campaign_threaded db s assignments env =
        (db, s, ⟨false, some "Campaign not ready for sending", 0, 0⟩)) := by
  refine ⟨?_, rfl, ?_, ?_, ?_⟩
  · intro h
    unfold start_campaign
    rw [if_pos h]
  · intro h
    unfold send_ultra_fast_endpoint
    rw [if_pos h]
  · intro h
    unfold send_campaign_ultra_fast
    rw [if_pos h]
  · intro h
    unfold send_campaign_threaded
    rw [if_pos h]

/-- Witness for the amended C7 at the Completed state and an empty
database. -/
theorem C7_send_guards_witness :
    (CampaignStatus.COMPLETED ≠ CampaignStatus.DRAFT ∧
     CampaignStatus.COMPLETED ≠ CampaignStatus.READY) ∧
    ((CampaignStatus.COMPLETED ≠ CampaignStatus.DRAFT →
      start_campaign CampaignStatus.COMPLETED =
        (CampaignStatus.COMPLETED, .httpError 400
          "Campaign must be in Draft status to start sending")) ∧
     start_campaign CampaignStatus.DRAFT =
      (CampaignStatus.SENDING, .ok "Campaign sending started") ∧
     (CampaignStatus.COMPLETED ≠ CampaignStatus.READY →
      send_ultra_fast_endpoint CampaignStatus.COMPLETED =
        (CampaignStatus.COMPLETED, .httpError 400
          "Campaign must be prepared (READY status) before sending")) ∧
     (CampaignStatus.COMPLETED ≠ CampaignStatus.READY →
      send_campaign_ultra_fast ⟨[], [], []⟩ CampaignStatus.COMPLETED []
          (fun _ => ⟨true, false⟩) =
        (⟨[], [], []⟩, CampaignStatus.COMPLETED,
         ⟨false, some "Campaign not ready for sending", 0, 0⟩)) ∧
     (CampaignStatus.COMPLETED ≠ CampaignStatus.READY →
      send_campaign_threaded ⟨[], [], []⟩ CampaignStatus.COMPLETED []
          (fun _ => ⟨true, false⟩) =
        (⟨[], [], []⟩, CampaignStatus.COMPLETED,
         ⟨false, some "Campaign not ready for sending", 0, 0⟩))) :=
  ⟨⟨by decide, by decide⟩,
    C7_send_guards CampaignStatus.COMPLETED ⟨[], [], []⟩ []
      (fun _ => ⟨true, false⟩)⟩

/-! ### State-evolution lemmas for the dispatch engine -/

theorem find?_users_update (users : List User) (uid : Nat) (g : User → User)
    (hg : ∀ u, (g u).id = u.id) :
    (users.map (fun u => if u.id == uid then g u else u)).find?
        (fun x => x.id == uid) =
      (users.find? (fun x => x.id == uid)).map g := by
  induction users with
  | nil => rfl
  | cons u tl ih =>
      rw [List.map_cons]
      by_cases hu : (u.id == uid) = true
      · rw [if_pos hu]
        have hL : List.find? (fun x => x.id == uid)
            (g u :: tl.map (fun u => if (u.id == uid) = true then g u
              else u)) = some (g u) :=
          List.find?_cons_of_pos _ (by rw [hg u]; exact hu)
        have hR : List.find? (fun x => x.id == uid) (u :: tl) = some u :=
          List.find?_cons_of_pos _ hu
        rw [hL, hR]
        rfl
      · rw [if_neg hu]
        have hL : List.find? (fun x => x.id == uid)
            (u :: tl.map (fun u => if (u.id == uid) = true then g u
              else u)) =
            List.find? (fun x => x.id == uid)
              (tl.map (fun u => if (u.id == uid) = true then g u else u)) :=
          List.find?_cons_of_neg _ hu
        have hR : List.find? (fun x => x.id == uid) (u :: tl) =
            List.find? (fun x => x.id == uid) tl :=
          List.find?_cons_of_neg _ hu
        rw [hL, hR]
        exact ih

theorem users_shape_update (users : List User) (uid : Nat) (g : User → User)
    (hg : ∀ u, (g u).id = u.id ∧ (g u).account_id = u.account_id) :
    (users.map (fun u => if u.id == uid then g u else u)).map
        (fun u => (u.id, u.account_id)) =
      users.map (fun u => (u.id, u.account_id)) := by
  rw [List.map_map]
  apply List.map_congr_left
  intro u _
  by_cases hu : (u.id == uid) = true
  · simp only [Function.comp, if_pos hu, (hg u).1, (hg u).2]
  · simp only [Function.comp, if_neg hu]

theorem recipients_ids_update (db : SendDB) (rid : Nat)
    (st : RecipientStatus) (err : Option String) :
    (update_recipient_status db rid st err).recipients.map (fun r => r.id) =
      db.recipients.map (fun r => r.id) := by
  unfold update_recipient_status
  simp only
  rw [List.map_map]
  apply List.map_congr_left
  intro r _
  by_cases hr : (r.id == rid) = true
  · simp only [Function.comp, if_pos hr]
  · simp only [Function.comp, if_neg hr]

theorem increment_users_shape (db : SendDB) (uid : Nat) :
    (increment_user_sent_count db uid).users.map
        (fun u => (u.id, u.account_id)) =
      db.users.map (fun u => (u.id, u.account_id)) := by
  unfold increment_user_sent_count
  exact users_shape_update db.users uid _ (fun u => ⟨rfl, rfl⟩)

theorem status_users_shape (db : SendDB) (uid : Nat) (st : UserStatus)
    (err : Option String) :
    (update_user_status db uid st err).users.map
        (fun u => (u.id, u.account_id)) =
      db.users.map (fun u => (u.id, u.account_id)) := by
  unfold update_user_status
  exact users_shape_update db.users uid _ (fun u => ⟨rfl, rfl⟩)

/-- Combined invariant for the result-processing fold of
`send_user_batch`. -/
theorem processResults_spec (uid : Nat) :
    ∀ (results : List (Nat × SendOutcome)) (d : SendDB) (s f : Nat),
      ((results.foldl (processResult uid) (d, s, f)).2.1 =
        s + (results.filter (fun r => r.2.success)).length) ∧
      ((results.foldl (processResult uid) (d, s, f)).2.2 =
        f + (results.filter (fun r => !r.2.success)).length) ∧
      ((results.foldl (processResult uid) (d, s, f)).1.accounts =
        d.accounts) ∧
      ((results.foldl (processResult uid) (d, s, f)).1.recipients.map
          (fun r => r.id) =
        d.recipients.map (fun r => r.id)) ∧
      ((results.foldl (processResult uid) (d, s, f)).1.users.map
          (fun u => (u.id, u.account_id)) =
        d.users.map (fun u => (u.id, u.account_id))) ∧
      (∀ u, d.users.find? (fun x => x.id == uid) = some u →
        ∃ u2, (results.foldl (processResult uid) (d, s, f)).1.users.find?
            (fun x => x.id == uid) = some u2 ∧
          u2.daily_sent_count = u.daily_sent_count +
            (results.filter (fun r => r.2.success)).length ∧
          u2.hourly_sent_count = u.hourly_sent_count +
            (results.filter (fun r => r.2.success)).length ∧
          (u2.status = u.status ∨ u2.status = UserStatus.ERROR)) := by
  intro results
  induction results with
  | nil =>
      intro d s f
      refine ⟨by simp, by simp, rfl, rfl, rfl, ?_⟩
      intro u hu
      exact ⟨u, hu, by simp, by simp, Or.inl rfl⟩
  | cons res rest ih =>
      intro d s f
      rw [List.foldl_cons]
      by_cases hs : res.2.success = true
      · -- success: recipient marked Sent, counters incremented
        have hstep : processResult uid (d, s, f) res =
            (increment_user_sent_count
              (update_recipient_status d res.1 RecipientStatus.SENT none) uid,
             s + 1, f) := by
          unfold processResult
          rw [if_pos hs]
        rw [hstep]
        obtain ⟨ih1, ih2, ih3, ih4, ih5, ih6⟩ := ih
          (increment_user_sent_count
            (update_recipient_status d res.1 RecipientStatus.SENT none) uid)
          (s + 1) f
        have hfilter : ((res :: rest).filter
            (fun r => r.2.success)).length =
            (rest.filter (fun r => r.2.success)).length + 1 := by
          rw [List.filter_cons, hs]
          simp
        have hfilterN : ((res :: rest).filter
            (fun r => !r.2.success)).length =
            (rest.filter (fun r => !r.2.success)).length := by
          rw [List.filter_cons]
          simp [hs]
        refine ⟨by rw [ih1, hfilter]; omega, by rw [ih2, hfilterN],
          by rw [ih3]; rfl, ?_, ?_, ?_⟩
        · rw [ih4]
          show (increment_user_sent_count
            (update_recipient_status d res.1 RecipientStatus.SENT none)
              uid).recipients.map (fun r => r.id) =
            d.recipients.map (fun r => r.id)
          have : (increment_user_sent_count
              (update_recipient_status d res.1 RecipientStatus.SENT none)
                uid).recipients =
              (update_recipient_status d res.1
                RecipientStatus.SENT none).recipients := rfl
          rw [this, recipients_ids_update]
        · rw [ih5]
          rw [show (increment_user_sent_count
              (update_recipient_status d res.1 RecipientStatus.SENT none)
                uid).users.map (fun u => (u.id, u.account_id)) =
              d.users.map (fun u => (u.id, u.account_id)) from
            increment_users_shape
              (update_recipient_status d res.1 RecipientStatus.SENT none) uid]
        · intro u hu
          have husers : (increment_user_sent_count
              (update_recipient_status d res.1 RecipientStatus.SENT none)
                uid).users =
              d.users.map (fun u => if u.id == uid then
                { u with
                  daily_sent_count := u.daily_sent_count + 1
                  hourly_sent_count := u.hourly_sent_count + 1 }
                else u) := rfl
          have hfind2 : (increment_user_sent_count
              (update_recipient_status d res.1 RecipientStatus.SENT none)
                uid).users.find? (fun x => x.id == uid) =
              some { u with
                daily_sent_count := u.daily_sent_count + 1
                hourly_sent_count := u.hourly_sent_count + 1 } := by
            rw [husers,
              find?_users_update d.users uid
                (fun u =>
                  { u with
                    daily_sent_count := u.daily_sent_count + 1
                    hourly_sent_count := u.hourly_sent_count + 1 })
                (fun u => rfl),
              hu]
            rfl
          obtain ⟨u2, hu2, hd, hh, hst⟩ := ih6 _ hfind2
          refine ⟨u2, hu2, ?_, ?_, ?_⟩
          · rw [hd, hfilter]
            simp only
            omega
          · rw [hh, hfilter]
            simp only
            omega
          · rcases hst with h | h
            · exact Or.inl h
            · exact Or.inr h
      · -- failure: recipient marked Failed, user possibly marked Error
        have hsb : res.2.success = false := by
          cases h : res.2.success
          · rfl
          · exact absurd h hs
        by_cases hretry : res.2.retry = true
        · have hstep : processResult uid (d, s, f) res =
              (update_recipient_status d res.1 RecipientStatus.FAILED
                (some "send error"), s, f + 1) := by
            unfold processResult
            rw [if_neg (by rw [hsb]; simp)]
            simp only [hretry, if_true]
          rw [hstep]
          obtain ⟨ih1, ih2, ih3, ih4, ih5, ih6⟩ := ih
            (update_recipient_status d res.1 RecipientStatus.FAILED
              (some "send error")) s (f + 1)
          have hfilter : ((res :: rest).filter
              (fun r => r.2.success)).length =
              (rest.filter (fun r => r.2.success)).length := by
            rw [List.filter_cons]
            simp [hsb]
          have hfilterN : ((res :: rest).filter
              (fun r => !r.2.success)).length =
              (rest.filter (fun r => !r.2.success)).length + 1 := by
            rw [List.filter_cons]
            simp [hsb]
          refine ⟨by rw [ih1, hfilter], by rw [ih2, hfilterN]; omega,
            by rw [ih3]; rfl, by rw [ih4, recipients_ids_update],
            by rw [ih5]; rfl, ?_⟩
          intro u hu
          have hfind2 : (update_recipient_status d res.1
              RecipientStatus.FAILED (some "send error")).users.find?
                (fun x => x.id == uid) = some u := hu
          obtain ⟨u2, hu2, hd, hh, hst⟩ := ih6 _ hfind2
          exact ⟨u2, hu2, by rw [hd, hfilter], by rw [hh, hfilter], hst⟩
        · have hrb : res.2.retry = false := by
            cases h : res.2.retry
            · rfl
            · exact absurd h hretry
          have hstep : processResult uid (d, s, f) res =
              (update_user_status
                (update_recipient_status d res.1 RecipientStatus.FAILED
                  (some "send error")) uid UserStatus.ERROR
                (some "send error"), s, f + 1) := by
            unfold processResult
            rw [if_neg (by rw [hsb]; simp)]
            simp only [hrb, Bool.false_eq_true, if_false]
          rw [hstep]
          obtain ⟨ih1, ih2, ih3, ih4, ih5, ih6⟩ := ih
            (update_user_status
              (update_recipient_status d res.1 RecipientStatus.FAILED
                (some "send error")) uid UserStatus.ERROR
              (some "send error")) s (f + 1)
          have hfilter : ((res :: rest).filter
              (fun r => r.2.success)).length =
              (rest.filter (fun r => r.2.success)).length := by
            rw [List.filter_cons]
            simp [hsb]
          have hfilterN : ((res :: rest).filter
              (fun r => !r.2.success)).length =
              (rest.filter (fun r => !r.2.success)).length + 1 := by
            rw [List.filter_cons]
            simp [hsb]
          refine ⟨by rw [ih1, hfilter], by rw [ih2, hfilterN]; omega,
            by rw [ih3]; rfl, ?_, ?_, ?_⟩
          · rw [ih4]
            rw [show (update_user_status
                (update_recipient_status d res.1 RecipientStatus.FAILED
                  (some "send error")) uid UserStatus.ERROR
                (some "send error")).recipients =
              (update_recipient_status d res.1 RecipientStatus.FAILED
                (some "send error")).recipients from rfl]
            rw [recipients_ids_update]
          · rw [ih5, status_users_shape]
            rfl
          · intro u hu
            have husers : (update_user_status
                (update_recipient_status d res.1 RecipientStatus.FAILED
                  (some "send error")) uid UserStatus.ERROR
                (some "send error")).users =
                d.users.map (fun u => if u.id == uid then
                  { u with
                    status := UserStatus.ERROR
                    last_error := some "send error" }
                  else u) := rfl
            have hfind2 : (update_user_status
                (update_recipient_status d res.1 RecipientStatus.FAILED
                  (some "send error")) uid UserStatus.ERROR
                (some "send error")).users.find? (fun x => x.id == uid) =
                some { u with
                  status := UserStatus.ERROR
                  last_error := some "send error" } := by
              rw [husers,
                find?_users_update d.users uid
                  (fun u =>
                    { u with
                      status := UserStatus.ERROR
                      last_error := some "send error" })
                  (fun u => rfl),
                hu]
              rfl
            obtain ⟨u2, hu2, hd, hh, hst⟩ := ih6 _ hfind2
            refine ⟨u2, hu2, by rw [hd, hfilter], by rw [hh, hfilter], ?_⟩
            rcases hst with h | h
            · exact Or.inr h
            · exact Or.inr h

theorem find?_id_mem (l : List Recipient) (rid : Nat)
    (h : rid ∈ l.map (fun r => r.id)) :
    ∃ r, l.find? (fun x => x.id == rid) = some r ∧ r.id = rid := by
  induction l with
  | nil => simp at h
  | cons y tl ih =>
      rw [List.map_cons, List.mem_cons] at h
      by_cases hy : (y.id == rid) = true
      · refine ⟨y, List.find?_cons_of_pos _ hy, ?_⟩
        simpa using hy
      · have hmem : rid ∈ tl.map (fun r => r.id) := by
          rcases h with h | h
          · exfalso
            apply hy
            simp [h]
          · exact h
        obtain ⟨r, hr, hid⟩ := ih hmem
        refine ⟨r, ?_, hid⟩
        have hcons : List.find? (fun x => x.id == rid) (y :: tl) =
            List.find? (fun x => x.id == rid) tl :=
          List.find?_cons_of_neg _ hy
        rw [hcons]
        exact hr

theorem email_results_eq (recipients : List Recipient)
    (group : List RecipientAssignment) (env : Nat → SendOutcome)
    (hr : ∀ a ∈ group, a.recipient_id ∈ recipients.map (fun r => r.id)) :
    ((group.filterMap (fun a =>
        (recipients.find? (fun r => r.id == a.recipient_id)).map
          (fun r => (a, r)))).map (fun p => (p.2.id, env p.2.id))) =
      group.map (fun a => (a.recipient_id, env a.recipient_id)) := by
  induction group with
  | nil => rfl
  | cons a tl ih =>
      obtain ⟨r, hfind, hid⟩ := find?_id_mem recipients a.recipient_id
        (hr a (List.mem_cons_self a tl))
      have hfa : (recipients.find? (fun x => x.id == a.recipient_id)).map
          (fun r => (a, r)) = some (a, r) := by
        rw [hfind]
        rfl
      have hcons2 : (a :: tl).filterMap (fun a =>
          (recipients.find? (fun r => r.id == a.recipient_id)).map
            (fun r => (a, r))) =
          (a, r) :: tl.filterMap (fun a =>
            (recipients.find? (fun r => r.id == a.recipient_id)).map
              (fun r => (a, r))) := by
        simp only [List.filterMap_cons, hfa]
      rw [hcons2, List.map_cons,
        ih (fun x hx => hr x (List.mem_cons_of_mem a hx))]
      simp [hid]

theorem length_filter_split {α : Type} (p : α → Bool) (l : List α) :
    (l.filter p).length + (l.filter (fun x => !p x)).length = l.length := by
  induction l with
  | nil => rfl
  | cons a tl ih =>
      rw [List.filter_cons, List.filter_cons]
      cases h : p a <;> simp [h] <;> omega

/-- Full behavior of `send_user_batch` when the user, its account, and every
assignment's recipient row exist: every assignment is attempted (there is no
quota or rate-limit check), the sent counter equals the number of successful
transport outcomes, the user's daily and hourly counters are incremented by
exactly that amount without any ceiling, and the user's status is either
untouched or set to `Error` — never to `RateLimited`. -/
theorem send_user_batch_spec (db : SendDB) (uid : Nat)
    (group : List RecipientAssignment) (env : Nat → SendOutcome) (u0 : User)
    (hu : db.users.find? (fun x => x.id == uid) = some u0)
    (ha : (db.accounts.find? (fun x => x.id == u0.account_id)).isSome)
    (hr : ∀ a ∈ group, a.recipient_id ∈ db.recipients.map (fun r => r.id)) :
    ((send_user_batch db uid group env).2.1 =
      (group.filter (fun a => (env a.recipient_id).success)).length) ∧
    ((send_user_batch db uid group env).2.2 =
      (group.filter (fun a => !(env a.recipient_id).success)).length) ∧
    ((send_user_batch db uid group env).1.accounts = db.accounts) ∧
    ((send_user_batch db uid group env).1.recipients.map (fun r => r.id) =
      db.recipients.map (fun r => r.id)) ∧
    ((send_user_batch db uid group env).1.users.map
        (fun u => (u.id, u.account_id)) =
      db.users.map (fun u => (u.id, u.account_id))) ∧
    (∃ u2, (send_user_batch db uid group env).1.users.find?
        (fun x => x.id == uid) = some u2 ∧
      u2.daily_sent_count = u0.daily_sent_count +
        (group.filter (fun a => (env a.recipient_id).success)).length ∧
      u2.hourly_sent_count = u0.hourly_sent_count +
        (group.filter (fun a => (env a.recipient_id).success)).length ∧
      (u2.status = u0.status ∨ u2.status = UserStatus.ERROR)) := by
  obtain ⟨acct, hacct⟩ := Option.isSome_iff_exists.mp ha
  have hbatch : send_user_batch db uid group env =
      ((group.filterMap (fun a =>
        (db.recipients.find? (fun r => r.id == a.recipient_id)).map
          (fun r => (a, r)))).map (fun p => (p.2.id, env p.2.id))).foldl
        (processResult uid) (db, 0, 0) := by
    unfold send_user_batch
    rw [hu]
    simp only [hacct]
  rw [hbatch, email_results_eq db.recipients group env hr]
  obtain ⟨p1, p2, p3, p4, p5, p6⟩ := processResults_spec uid
    (group.map (fun a => (a.recipient_id, env a.recipient_id))) db 0 0
  have hfiltS : ((group.map (fun a =>
      (a.recipient_id, env a.recipient_id))).filter
        (fun r => r.2.success)).length =
      (group.filter (fun a => (env a.recipient_id).success)).length := by
    rw [List.filter_map, List.length_map]
    rfl
  have hfiltF : ((group.map (fun a =>
      (a.recipient_id, env a.recipient_id))).filter
        (fun r => !r.2.success)).length =
      (group.filter (fun a => !(env a.recipient_id).success)).length := by
    rw [List.filter_map, List.length_map]
    rfl
  refine ⟨by rw [p1, hfiltS]; omega, by rw [p2, hfiltF]; omega, p3, p4, p5,
    ?_⟩
  obtain ⟨u2, hu2, hd, hh, hst⟩ := p6 u0 hu
  exact ⟨u2, hu2, by rw [hd, hfiltS], by rw [hh, hfiltS], hst⟩

/-! ### The per-user grouping of the async sender -/

theorem addToGroup_keys_mem {α : Type} (k : Nat) (l : List (Nat × List α))
    (a : α) (u : Nat) :
    u ∈ (addToGroup k l a).map Prod.fst ↔ u ∈ l.map Prod.fst ∨ u = k := by
  induction l with
  | nil =>
      rw [addToGroup_nil]
      simp
  | cons hd tl ih =>
      obtain ⟨k₁, xs⟩ := hd
      rw [addToGroup_cons]
      by_cases h1 : k₁ = k
      · rw [if_pos h1]
        subst h1
        simp only [List.map_cons, List.mem_cons]
        tauto
      · rw [if_neg h1]
        simp only [List.map_cons, List.mem_cons, ih]
        tauto

theorem addToGroup_keys_nodup {α : Type} (k : Nat) (l : List (Nat × List α))
    (a : α) (h : (l.map Prod.fst).Nodup) :
    ((addToGroup k l a).map Prod.fst).Nodup := by
  induction l with
  | nil =>
      rw [addToGroup_nil]
      simp
  | cons hd tl ih =>
      obtain ⟨k₁, xs⟩ := hd
      simp only [List.map_cons, List.nodup_cons] at h
      rw [addToGroup_cons]
      by_cases h1 : k₁ = k
      · rw [if_pos h1]
        simp only [List.map_cons, List.nodup_cons]
        exact h
      · rw [if_neg h1]
        simp only [List.map_cons, List.nodup_cons]
        refine ⟨?_, ih h.2⟩
        rw [addToGroup_keys_mem]
        rintro (hm | hm)
        · exact h.1 hm
        · exact h1 hm

theorem groupByUser_leaf (as : List RecipientAssignment) (u : Nat) :
    (assocFind? (groupByUser as) u).getD [] =
      as.filter (fun x => x.user_id == u) := by
  suffices h : ∀ acc, (assocFind? (as.foldl
      (fun acc a => addToGroup a.user_id acc a) acc) u).getD [] =
      (assocFind? acc u).getD [] ++ as.filter (fun x => x.user_id == u) by
    have h0 := h []
    unfold groupByUser
    rw [h0]
    simp [assocFind?_nil]
  induction as with
  | nil =>
      intro acc
      simp
  | cons a tl ih =>
      intro acc
      rw [List.foldl_cons, ih (addToGroup a.user_id acc a), addToGroup_leaf,
        List.filter_cons]
      by_cases hc : u = a.user_id
      · have hb : (a.user_id == u) = true := by simp [hc]
        rw [if_pos hc, hb]
        simp
      · have hb : (a.user_id == u) = false := by
          simp only [beq_eq_false_iff_ne, ne_eq]
          intro hcc
          exact hc hcc.symm
        rw [if_neg hc, hb]
        simp

theorem groupByUser_keys_nodup (as : List RecipientAssignment) :
    ((groupByUser as).map Prod.fst).Nodup := by
  suffices h : ∀ acc, ((acc : List (Nat × List RecipientAssignment)).map
      Prod.fst).Nodup →
      ((as.foldl (fun acc a => addToGroup a.user_id acc a) acc).map
        Prod.fst).Nodup from h [] (by simp)
  induction as with
  | nil => intro acc hacc; exact hacc
  | cons a tl ih =>
      intro acc hacc
      rw [List.foldl_cons]
      exact ih (addToGroup a.user_id acc a)
        (addToGroup_keys_nodup a.user_id acc a hacc)

theorem groupByUser_keys_sound (as : List RecipientAssignment) :
    ∀ u ∈ (groupByUser as).map Prod.fst, ∃ a ∈ as, a.user_id = u := by
  suffices h : ∀ acc u, u ∈ ((as.foldl
      (fun acc a => addToGroup a.user_id acc a) acc).map Prod.fst) →
      u ∈ (acc : List (Nat × List RecipientAssignment)).map Prod.fst ∨
        ∃ a ∈ as, a.user_id = u by
    intro u hu
    rcases h [] u hu with hc | hc
    · simp at hc
    · exact hc
  induction as with
  | nil =>
      intro acc u hu
      exact Or.inl hu
  | cons a tl ih =>
      intro acc u hu
      rw [List.foldl_cons] at hu
      rcases ih (addToGroup a.user_id acc a) u hu with hc | hc
      · rw [addToGroup_keys_mem] at hc
        rcases hc with hc | hc
        · exact Or.inl hc
        · exact Or.inr ⟨a, List.mem_cons_self a tl, hc.symm⟩
      · obtain ⟨x, hx, hxe⟩ := hc
        exact Or.inr ⟨x, List.mem_cons_of_mem a hx, hxe⟩

theorem groupByUser_entries (as : List RecipientAssignment) (u : Nat)
    (g : List RecipientAssignment) (h : (u, g) ∈ groupByUser as) :
    g = as.filter (fun x => x.user_id == u) := by
  have hfind : assocFind? (groupByUser as) u = some g :=
    assocFind?_of_mem_nodup _ u g (groupByUser_keys_nodup as) h
  have := groupByUser_leaf as u
  rw [hfind] at this
  exact this

theorem count_userFilter (as : List RecipientAssignment)
    (x : RecipientAssignment) (u : Nat) :
    (as.filter (fun y => y.user_id == u)).count x =
      if x.user_id = u then as.count x else 0 := by
  by_cases hc : x.user_id = u
  · rw [if_pos hc]
    apply List.count_filter
    simp [hc]
  · rw [if_neg hc]
    rw [List.count_eq_zero]
    intro hmem
    rw [List.mem_filter] at hmem
    exact hc (by simpa using hmem.2)

/-- The concatenation of the per-user groups is a permutation of the
assignment list. -/
theorem groupByUser_join_perm (as : List RecipientAssignment) :
    (((groupByUser as).map (fun e => e.2)).join).Perm as := by
  apply List.perm_iff_count.mpr
  intro x
  rw [count_join, List.map_map]
  have hmap : ((groupByUser as).map
      ((fun l => l.count x) ∘ fun e => e.2)) =
      ((groupByUser as).map Prod.fst).map
        (fun u => if x.user_id = u then as.count x else 0) := by
    rw [List.map_map]
    apply List.map_congr_left
    intro e he
    obtain ⟨u, g⟩ := e
    simp only [Function.comp]
    rw [groupByUser_entries as u g he, count_userFilter]
  rw [hmap, sum_map_ite _ _ _ (groupByUser_keys_nodup as)]
  by_cases hx : x ∈ as
  · rw [if_pos ?_]
    suffices hk : x.user_id ∈ (groupByUser as).map Prod.fst from hk
    -- reuse the membership argument of the two-level grouping, one level
    suffices h : ∀ acc, x.user_id ∈ ((as.foldl
        (fun acc a => addToGroup a.user_id acc a) acc).map Prod.fst) ∨
        False from (h []).resolve_right id
    clear hmap
    induction as with
    | nil => cases hx
    | cons a tl ih =>
        intro acc
        rw [List.foldl_cons]
        left
        rcases List.mem_cons.mp hx with heq | hmem
        · subst heq
          have hmono : ∀ (bs : List RecipientAssignment)
              (acc2 : List (Nat × List RecipientAssignment)) (u : Nat),
              u ∈ acc2.map Prod.fst →
              u ∈ ((bs.foldl (fun acc a => addToGroup a.user_id acc a)
                acc2).map Prod.fst) := by
            intro bs
            induction bs with
            | nil => intro acc2 u hu; exact hu
            | cons b bs ihb =>
                intro acc2 u hu
                rw [List.foldl_cons]
                exact ihb (addToGroup b.user_id acc2 b) u
                  ((addToGroup_keys_mem b.user_id acc2 b u).mpr (Or.inl hu))
          exact hmono tl (addToGroup x.user_id acc x) x.user_id
            ((addToGroup_keys_mem x.user_id acc x x.user_id).mpr
              (Or.inr rfl))
        · exact ((ih hmem) (addToGroup a.user_id acc a)).resolve_right id
  · have hcnt : as.count x = 0 := List.count_eq_zero.mpr hx
    rw [hcnt]
    by_cases hk : x.user_id ∈ (groupByUser as).map Prod.fst
    · rw [if_pos hk]
    · rw [if_neg hk]

theorem find?_shape_transfer (l1 l2 : List User)
    (h : l1.map (fun u => (u.id, u.account_id)) =
      l2.map (fun u => (u.id, u.account_id))) (uid : Nat) :
    ∀ u1, l1.find? (fun x => x.id == uid) = some u1 →
      ∃ u2, l2.find? (fun x => x.id == uid) = some u2 ∧
        u2.account_id = u1.account_id := by
  induction l1 generalizing l2 with
  | nil =>
      intro u1 h1
      simp at h1
  | cons y tl ih =>
      cases l2 with
      | nil => simp at h
      | cons z tl2 =>
          simp only [List.map_cons, List.cons.injEq] at h
          intro u1 h1
          by_cases hy : (y.id == uid) = true
          · have hz : (z.id == uid) = true := by
              have : z.id = y.id := by
                have := h.1
                exact (Prod.mk.injEq _ _ _ _ |>.mp this).1.symm
              rw [this]
              exact hy
            have hLy : List.find? (fun x => x.id == uid) (y :: tl) =
                some y := List.find?_cons_of_pos _ hy
            rw [hLy] at h1
            cases h1
            refine ⟨z, List.find?_cons_of_pos _ hz, ?_⟩
            exact (Prod.mk.injEq _ _ _ _ |>.mp h.1).2.symm
          · have hz : ¬ (z.id == uid) = true := by
              have : z.id = y.id := by
                have := h.1
                exact (Prod.mk.injEq _ _ _ _ |>.mp this).1.symm
              rw [this]
              exact hy
            have hLy : List.find? (fun x => x.id == uid) (y :: tl) =
                List.find? (fun x => x.id == uid) tl :=
              List.find?_cons_of_neg _ hy
            have hLz : List.find? (fun x => x.id == uid) (z :: tl2) =
                List.find? (fun x => x.id == uid) tl2 :=
              List.find?_cons_of_neg _ hz
            rw [hLy] at h1
            rw [hLz]
            exact ih tl2 h.2 u1 h1

theorem length_filter_join {α : Type} (p : α → Bool) (L : List (List α)) :
    ((L.join).filter p).length =
      (L.map (fun l => (l.filter p).length)).sum := by
  induction L with
  | nil => rfl
  | cons hd tl ih =>
      simp only [List.join_cons, List.filter_append, List.length_append,
        List.map_cons, List.sum_cons, ih]

/-- The per-user task loop of the async sender: totals are the sums of the
per-group success and failure counts, and the database keeps its id
structure. -/
theorem groups_fold_spec (env : Nat → SendOutcome) :
    ∀ (groups : List (Nat × List RecipientAssignment)) (d : SendDB)
      (s f : Nat)
      (hu : ∀ e ∈ groups, ∃ u0, d.users.find? (fun x => x.id == e.1) =
        some u0 ∧ (d.accounts.find? (fun x => x.id == u0.account_id)).isSome)
      (hr : ∀ e ∈ groups, ∀ a ∈ e.2,
        a.recipient_id ∈ d.recipients.map (fun r => r.id)),
      ((groups.foldl (fun (acc : SendDB × Nat × Nat) e =>
          let r := send_user_batch acc.1 e.1 e.2 env
          (r.1, acc.2.1 + r.2.1, acc.2.2 + r.2.2)) (d, s, f)).2.1 =
        s + (groups.map (fun e => (e.2.filter
          (fun a => (env a.recipient_id).success)).length)).sum) ∧
      ((groups.foldl (fun (acc : SendDB × Nat × Nat) e =>
          let r := send_user_batch acc.1 e.1 e.2 env
          (r.1, acc.2.1 + r.2.1, acc.2.2 + r.2.2)) (d, s, f)).2.2 =
        f + (groups.map (fun e => (e.2.filter
          (fun a => !(env a.recipient_id).success)).length)).sum) := by
  intro groups
  induction groups with
  | nil =>
      intro d s f hu hr
      constructor
      · simp
      · simp
  | cons e rest ih =>
      intro d s f hu hr
      obtain ⟨u0, hu0, ha0⟩ := hu e (List.mem_cons_self e rest)
      obtain ⟨b1, b2, b3, b4, b5, -⟩ := send_user_batch_spec d e.1 e.2 env u0
        hu0 ha0 (hr e (List.mem_cons_self e rest))
      rw [List.foldl_cons]
      have hu2 : ∀ e2 ∈ rest, ∃ u02,
          (send_user_batch d e.1 e.2 env).1.users.find?
            (fun x => x.id == e2.1) = some u02 ∧
          ((send_user_batch d e.1 e.2 env).1.accounts.find?
            (fun x => x.id == u02.account_id)).isSome := by
        intro e2 he2
        obtain ⟨u1, hu1, ha1⟩ := hu e2 (List.mem_cons_of_mem e he2)
        obtain ⟨u02, hu02, hacc02⟩ := find?_shape_transfer d.users
          (send_user_batch d e.1 e.2 env).1.users b5.symm e2.1 u1 hu1
        refine ⟨u02, hu02, ?_⟩
        rw [b3, hacc02]
        exact ha1
      have hr2 : ∀ e2 ∈ rest, ∀ a ∈ e2.2, a.recipient_id ∈
          (send_user_batch d e.1 e.2 env).1.recipients.map
            (fun r => r.id) := by
        intro e2 he2 a haa
        rw [b4]
        exact hr e2 (List.mem_cons_of_mem e he2) a haa
      obtain ⟨ih1, ih2⟩ := ih (send_user_batch d e.1 e.2 env).1
        (s + (send_user_batch d e.1 e.2 env).2.1)
        (f + (send_user_batch d e.1 e.2 env).2.2) hu2 hr2
      constructor
      · rw [ih1, b1, List.map_cons, List.sum_cons]
        omega
      · rw [ih2, b2, List.map_cons, List.sum_cons]
        omega

/-- C3 counterexample data: the sending user already has 2000 daily sends
recorded — exactly the account's configured daily quota. -/
def dbQ : SendDB :=
  ⟨[⟨1, "acme", true, 2000, 250⟩],
   [⟨11, "a@acme.io", "A", .ACTIVE, 2000, 0, none, 1⟩],
   [⟨1, "r@x.io", "R", [], .ASSIGNED, none⟩]⟩

/-- A transport that accepts everything. -/
def envOK : Nat → SendOutcome := fun _ => ⟨true, false⟩

/-- A transport that rejects everything with a non-retryable error. -/
def envFail : Nat → SendOutcome := fun _ => ⟨false, false⟩

/-- C3 counterexample: a user whose daily counter already equals the daily
quota (2000) still gets its assignment attempted; after the successful send
the counter is 2001 > 2000, and the identity status is untouched (never
`RateLimited`). -/
theorem C3_counterexample :
    ((send_user_batch dbQ 11 [⟨1, 11, 1, 0, 0⟩] envOK).1.users.map
      (fun u => u.daily_sent_count)) = [2001] ∧
    (dbQ.accounts.map (fun a => a.daily_quota)) = [2000] ∧
    ¬ (2001 ≤ 2000) ∧
    (send_user_batch dbQ 11 [⟨1, 11, 1, 0, 0⟩] envOK).2.1 = 1 ∧
    ((send_user_batch dbQ 11 [⟨1, 11, 1, 0, 0⟩] envOK).1.users.map
      (fun u => u.status)) = [UserStatus.ACTIVE] := by
  refine ⟨by decide, by decide, by decide, by decide, by decide⟩

/-- C3 (amended): `send_user_batch` performs no capacity or rate-limit check
at all — with the user, its account and every recipient row present, every
assignment is attempted (sent + failed = total, nothing left `Assigned`),
the daily and hourly counters grow by exactly the number of successful sends
with no quota ceiling, and the identity's status is only ever left unchanged
or set to `Error`, never to `RateLimited`. -/
theorem C3_no_quota_enforcement (db : SendDB) (uid : Nat)
    (group : List RecipientAssignment) (env : Nat → SendOutcome) (u0 : User)
    (hu : db.users.find? (fun x => x.id == uid) = some u0)
    (ha : (db.accounts.find? (fun x => x.id == u0.account_id)).isSome)
    (hr : ∀ a ∈ group, a.recipient_id ∈ db.recipients.map (fun r => r.id)) :
    ((send_user_batch db uid group env).2.1 +
      (send_user_batch db uid group env).2.2 = group.length) ∧
    (∃ u2, (send_user_batch db uid group env).1.users.find?
        (fun x => x.id == uid) = some u2 ∧
      u2.daily_sent_count = u0.daily_sent_count +
        (send_user_batch db uid group env).2.1 ∧
      u2.hourly_sent_count = u0.hourly_sent_count +
        (send_user_batch db uid group env).2.1 ∧
      (u2.status = u0.status ∨ u2.status = UserStatus.ERROR) ∧
      (u0.status ≠ UserStatus.RATE_LIMITED →
        u2.status ≠ UserStatus.RATE_LIMITED)) := by
  obtain ⟨b1, b2, -, -, -, u2, hu2, hd, hh, hst⟩ :=
    send_user_batch_spec db uid group env u0 hu ha hr
  refine ⟨?_, u2, hu2, ?_, ?_, hst, ?_⟩
  · rw [b1, b2]
    exact length_filter_split _ group
  · rw [hd, b1]
  · rw [hh, b1]
  · intro h0 hc
    rcases hst with h | h
    · exact h0 (h.symm.trans hc)
    · exact UserStatus.noConfusion (h.symm.trans hc)

/-- Witness for the amended C3 at the quota-saturated user. -/
theorem C3_no_quota_enforcement_witness :
    dbQ.users.find? (fun x => x.id == 11) =
      some ⟨11, "a@acme.io", "A", .ACTIVE, 2000, 0, none, 1⟩ ∧
    (dbQ.accounts.find? (fun x => x.id == 1)).isSome ∧
    (∀ a ∈ [(⟨1, 11, 1, 0, 0⟩ : RecipientAssignment)],
      a.recipient_id ∈ dbQ.recipients.map (fun r => r.id)) ∧
    (((send_user_batch dbQ 11 [⟨1, 11, 1, 0, 0⟩] envOK).2.1 +
      (send_user_batch dbQ 11 [⟨1, 11, 1, 0, 0⟩] envOK).2.2 =
        ([(⟨1, 11, 1, 0, 0⟩ : RecipientAssignment)]).length) ∧
     (∃ u2, (send_user_batch dbQ 11 [⟨1, 11, 1, 0, 0⟩] envOK).1.users.find?
        (fun x => x.id == 11) = some u2 ∧
      u2.daily_sent_count = 2000 +
        (send_user_batch dbQ 11 [⟨1, 11, 1, 0, 0⟩] envOK).2.1 ∧
      u2.hourly_sent_count = 0 +
        (send_user_batch dbQ 11 [⟨1, 11, 1, 0, 0⟩] envOK).2.1 ∧
      (u2.status = UserStatus.ACTIVE ∨ u2.status = UserStatus.ERROR) ∧
      (UserStatus.ACTIVE ≠ UserStatus.RATE_LIMITED →
        u2.status ≠ UserStatus.RATE_LIMITED))) :=
  ⟨by decide, by decide, by decide,
    C3_no_quota_enforcement dbQ 11 [⟨1, 11, 1, 0, 0⟩] envOK
      ⟨11, "a@acme.io", "A", .ACTIVE, 2000, 0, none, 1⟩
      (by decide) (by decide) (by decide)⟩

/-- C2 counterexample data: one account, one user, one assigned
recipient. -/
def dbS : SendDB :=
  ⟨[⟨1, "acme", true, 2000, 250⟩],
   [⟨11, "a@acme.io", "A", .ACTIVE, 0, 0, none, 1⟩],
   [⟨1, "r@x.io", "R", [], .ASSIGNED, none⟩,
    ⟨2, "s@x.io", "S", [], .ASSIGNED, none⟩]⟩

/-- C2 counterexample: a threaded run whose only attempted send fails ends
with campaign status `Completed` (0 sent, 1 failed), where the claim
requires `Failed`; and the async sender invoked with zero assignments
returns an error and leaves the campaign in the already-committed `Sending`
state, where the claim requires `Completed`. -/
theorem C2_counterexample :
    (send_campaign_threaded dbS CampaignStatus.READY [⟨1, 11, 1, 0, 0⟩]
      envFail).2.1 = CampaignStatus.COMPLETED ∧
    (send_campaign_threaded dbS CampaignStatus.READY [⟨1, 11, 1, 0, 0⟩]
      envFail).2.2.total_sent = 0 ∧
    (send_campaign_threaded dbS CampaignStatus.READY [⟨1, 11, 1, 0, 0⟩]
      envFail).2.2.total_failed = 1 ∧
    CampaignStatus.COMPLETED ≠ CampaignStatus.FAILED ∧
    (send_campaign_ultra_fast dbS CampaignStatus.READY [] envFail).2.1 =
      CampaignStatus.SENDING ∧
    CampaignStatus.SENDING ≠ CampaignStatus.COMPLETED := by
  refine ⟨by decide, by decide, by decide, by decide, by decide, by decide⟩

/-- C2 (amended): for the async strategy with all referenced rows present,
the totals count exactly the successful and failed transport outcomes over
all assignments, and the final status classification is: `Completed` iff no
failure occurred or at least one send succeeded, `Failed` iff at least one
send failed and none succeeded; but with zero assignments the async sender
returns an error dict and leaves the campaign in the committed `Sending`
state, and the threaded strategy always ends `Completed` regardless of the
outcomes. -/
theorem C2_completion_classification (db : SendDB)
    (assignments : List RecipientAssignment) (env : Nat → SendOutcome)
    (hu : ∀ a ∈ assignments, ∃ u0,
      db.users.find? (fun x => x.id == a.user_id) = some u0 ∧
      (db.accounts.find? (fun x => x.id == u0.account_id)).isSome)
    (hr : ∀ a ∈ assignments,
      a.recipient_id ∈ db.recipients.map (fun r => r.id)) :
    (assignments = [] →
      (send_campaign_ultra_fast db CampaignStatus.READY assignments
        env).2.1 = CampaignStatus.SENDING ∧
      (send_campaign_ultra_fast db CampaignStatus.READY assignments
        env).2.2.success = false) ∧
    (assignments ≠ [] →
      (send_campaign_ultra_fast db CampaignStatus.READY assignments
        env).2.2.total_sent =
        (assignments.filter (fun a => (env a.recipient_id).success)).length ∧
      (send_campaign_ultra_fast db CampaignStatus.READY assignments
        env).2.2.total_failed =
        (assignments.filter
          (fun a => !(env a.recipient_id).success)).length ∧
      ((send_campaign_ultra_fast db CampaignStatus.READY assignments
          env).2.1 = CampaignStatus.FAILED ↔
        (0 < (assignments.filter
            (fun a => !(env a.recipient_id).success)).length ∧
         (assignments.filter
            (fun a => (env a.recipient_id).success)).length = 0)) ∧
      ((send_campaign_ultra_fast db CampaignStatus.READY assignments
          env).2.1 = CampaignStatus.COMPLETED ↔
        ((assignments.filter
            (fun a => !(env a.recipient_id).success)).length = 0 ∨
         0 < (assignments.filter
            (fun a => (env a.recipient_id).success)).length))) ∧
    (send_campaign_threaded db CampaignStatus.READY assignments env).2.1 =
      CampaignStatus.COMPLETED := by
  refine ⟨?_, ?_, ?_⟩
  · intro h
    subst h
    exact ⟨rfl, rfl⟩
  · intro h
    have hne : assignments.isEmpty = false := by
      cases hc : assignments with
      | nil => exact absurd hc h
      | cons a l => rfl
    have hmain : send_campaign_ultra_fast db CampaignStatus.READY
        assignments env =
        ((((groupByUser assignments).foldl
            (fun (acc : SendDB × Nat × Nat) e =>
              let r := send_user_batch acc.1 e.1 e.2 env
              (r.1, acc.2.1 + r.2.1, acc.2.2 + r.2.2)) (db, 0, 0)).1),
         (if (((groupByUser assignments).foldl
            (fun (acc : SendDB × Nat × Nat) e =>
              let r := send_user_batch acc.1 e.1 e.2 env
              (r.1, acc.2.1 + r.2.1, acc.2.2 + r.2.2)) (db, 0, 0)).2.2
              == 0) then CampaignStatus.COMPLETED
          else if (((groupByUser assignments).foldl
            (fun (acc : SendDB × Nat × Nat) e =>
              let r := send_user_batch acc.1 e.1 e.2 env
              (r.1, acc.2.1 + r.2.1, acc.2.2 + r.2.2)) (db, 0, 0)).2.1
              == 0) then CampaignStatus.FAILED
          else CampaignStatus.COMPLETED),
         ⟨true, none,
          (((groupByUser assignments).foldl
            (fun (acc : SendDB × Nat × Nat) e =>
              let r := send_user_batch acc.1 e.1 e.2 env
              (r.1, acc.2.1 + r.2.1, acc.2.2 + r.2.2)) (db, 0, 0)).2.1),
          (((groupByUser assignments).foldl
            (fun (acc : SendDB × Nat × Nat) e =>
              let r := send_user_batch acc.1 e.1 e.2 env
              (r.1, acc.2.1 + r.2.1, acc.2.2 + r.2.2)) (db, 0, 0)).2.2)⟩) := by
      unfold send_campaign_ultra_fast
      rw [if_neg (by simp), hne]
      simp only [Bool.false_eq_true, if_false]
    have hu2 : ∀ e ∈ groupByUser assignments, ∃ u0,
        db.users.find? (fun x => x.id == e.1) = some u0 ∧
        (db.accounts.find? (fun x => x.id == u0.account_id)).isSome := by
      intro e he
      obtain ⟨a, haa, hae⟩ := groupByUser_keys_sound assignments e.1
        (List.mem_map_of_mem Prod.fst he)
      obtain ⟨u0, hu0, hacc0⟩ := hu a haa
      rw [hae] at hu0
      exact ⟨u0, hu0, hacc0⟩
    have hr2 : ∀ e ∈ groupByUser assignments, ∀ a ∈ e.2,
        a.recipient_id ∈ db.recipients.map (fun r => r.id) := by
      intro e he a haa
      obtain ⟨u, g⟩ := e
      rw [groupByUser_entries assignments u g he] at haa
      exact hr a (List.mem_filter.mp haa).1
    obtain ⟨f1, f2⟩ := groups_fold_spec env (groupByUser assignments) db 0 0
      hu2 hr2
    have hS : ((groupByUser assignments).map (fun e => (e.2.filter
        (fun a => (env a.recipient_id).success)).length)).sum =
        (assignments.filter (fun a => (env a.recipient_id).success)).length
        := by
      rw [show ((groupByUser assignments).map (fun e => (e.2.filter
          (fun a => (env a.recipient_id).success)).length)) =
          (((groupByUser assignments).map (fun e => e.2)).map
            (fun l => (l.filter
              (fun a => (env a.recipient_id).success)).length)) from by
        rw [List.map_map]
        rfl]
      rw [← length_filter_join]
      exact (List.Perm.filter _ (groupByUser_join_perm assignments)).length_eq
    have hF : ((groupByUser assignments).map (fun e => (e.2.filter
        (fun a => !(env a.recipient_id).success)).length)).sum =
        (assignments.filter
          (fun a => !(env a.recipient_id).success)).length := by
      rw [show ((groupByUser assignments).map (fun e => (e.2.filter
          (fun a => !(env a.recipient_id).success)).length)) =
          (((groupByUser assignments).map (fun e => e.2)).map
            (fun l => (l.filter
              (fun a => !(env a.recipient_id).success)).length)) from by
        rw [List.map_map]
        rfl]
      rw [← length_filter_join]
      exact (List.Perm.filter _ (groupByUser_join_perm assignments)).length_eq
    have hsent : (((groupByUser assignments).foldl
        (fun (acc : SendDB × Nat × Nat) e =>
          let r := send_user_batch acc.1 e.1 e.2 env
          (r.1, acc.2.1 + r.2.1, acc.2.2 + r.2.2)) (db, 0, 0)).2.1) =
        (assignments.filter (fun a => (env a.recipient_id).success)).length
        := by
      rw [f1, hS]
      omega
    have hfail : (((groupByUser assignments).foldl
        (fun (acc : SendDB × Nat × Nat) e =>
          let r := send_user_batch acc.1 e.1 e.2 env
          (r.1, acc.2.1 + r.2.1, acc.2.2 + r.2.2)) (db, 0, 0)).2.2) =
        (assignments.filter
          (fun a => !(env a.recipient_id).success)).length := by
      rw [f2, hF]
      omega
    rw [hmain]
    simp only
    rw [hsent, hfail]
    refine ⟨rfl, rfl, ?_, ?_⟩
    · by_cases hF0 : (assignments.filter
          (fun a => !(env a.recipient_id).success)).length = 0
      · simp [hF0]
      · by_cases hS0 : (assignments.filter
            (fun a => (env a.recipient_id).success)).length = 0
        · simp only [hS0, hF0]
          constructor
          · intro _
            exact ⟨Nat.pos_of_ne_zero hF0, trivial⟩
          · intro _
            have h1 : ((assignments.filter
                (fun a => !(env a.recipient_id).success)).length == 0) =
                false := by
              simp [hF0]
            rw [h1]
            simp
        · have h1 : ((assignments.filter
              (fun a => !(env a.recipient_id).success)).length == 0) =
              false := by
            simp [hF0]
          have h2 : ((assignments.filter
              (fun a => (env a.recipient_id).success)).length == 0) =
              false := by
            simp [hS0]
          rw [h1, h2]
          simp only [Bool.false_eq_true, if_false]
          constructor
          · intro hc
            exact absurd hc (by simp)
          · intro hc
            exact absurd hc.2 hS0
    · by_cases hF0 : (assignments.filter
          (fun a => !(env a.recipient_id).success)).length = 0
      · simp [hF0]
      · by_cases hS0 : (assignments.filter
            (fun a => (env a.recipient_id).success)).length = 0
        · have h1 : ((assignments.filter
              (fun a => !(env a.recipient_id).success)).length == 0) =
              false := by
            simp [hF0]
          rw [h1]
          simp only [Bool.false_eq_true, if_false, hS0]
          simp only [Nat.lt_irrefl, or_false]
          constructor
          · intro hc
            exact absurd hc (by simp)
          · intro hc
            exact absurd hc hF0
        · have h1 : ((assignments.filter
              (fun a => !(env a.recipient_id).success)).length == 0) =
              false := by
            simp [hF0]
          have h2 : ((assignments.filter
              (fun a => (env a.recipient_id).success)).length == 0) =
              false := by
            simp [hS0]
          rw [h1, h2]
          simp only [Bool.false_eq_true, if_false]
          constructor
          · intro _
            exact Or.inr (Nat.pos_of_ne_zero hS0)
          · intro _
            trivial
  · rfl

/-- Two assignments for user 11: recipient 1 succeeds, recipient 2 fails
under `envMixed`. -/
def asgW : List RecipientAssignment := [⟨1, 11, 1, 0, 0⟩, ⟨2, 11, 1, 0, 1⟩]

/-- A transport that accepts recipient 1 and rejects everyone else. -/
def envMixed : Nat → SendOutcome :=
  fun rid => if rid == 1 then ⟨true, false⟩ else ⟨false, false⟩

/-- Witness for the amended C2: a mixed run (one success, one failure) ends
`Completed` under both strategies. -/
theorem C2_completion_classification_witness :
    (send_campaign_ultra_fast dbS CampaignStatus.READY asgW envMixed).2.1 =
      CampaignStatus.COMPLETED ∧
    (send_campaign_threaded dbS CampaignStatus.READY asgW envMixed).2.1 =
      CampaignStatus.COMPLETED := by
  have h := C2_completion_classification dbS asgW envMixed
    (by
      intro a ha
      fin_cases ha <;>
        exact ⟨⟨11, "a@acme.io", "A", .ACTIVE, 0, 0, none, 1⟩,
          by decide, by decide⟩)
    (by
      intro a ha
      fin_cases ha <;> decide)
  refine ⟨?_, h.2.2⟩
  exact (h.2.1 (by decide)).2.2.2.mpr (Or.inr (by decide))

/-! ### Template rendering (`utils/email_sender.py`, `utils/gmail_service.py`)

Python's `str.replace` replaces all non-overlapping occurrences left to
right; it is embedded here by structural recursion on a character-count
fuel so that concrete instances evaluate. -/

/-- One pass of Python `str.replace` over the character list; each step
consumes at least one character of the subject, so `s.length` fuel
suffices. -/
def pyReplaceAux (rep pat : List Char) : Nat → List Char → List Char
  | 0, s => s
  | fuel + 1, s =>
      match s with
      | [] => []
      | c :: rest =>
          if pat ≠ [] ∧ pat.isPrefixOf (c :: rest) then
            rep ++ pyReplaceAux rep pat fuel ((c :: rest).drop pat.length)
          else
            c :: pyReplaceAux rep pat fuel rest

/-- Python `s.replace(pattern, replacement)` (for the non-empty patterns the
repository uses). -/
def pyReplace (s pattern replacement : String) : String :=
  ⟨pyReplaceAux replacement.data pattern.data s.data.length s.data⟩

/-- `EmailSender._process_template`: substitutes each personalization key's
`\x7b\x7bkey\x7d\x7d` placeholder in the HTML body, in dict order; an empty
data map returns the body unchanged; keys absent from the body leave it
untouched (no error). -/
def process_template (html_body : String)
    (custom_data : List (String × String)) : String :=
  if custom_data.isEmpty then html_body
  else
    custom_data.foldl
      (fun processed kv =>
        pyReplace processed ("\x7b\x7b" ++ kv.1 ++ "\x7d\x7d") kv.2)
      html_body

/-- The rendered message of `GmailServiceManager.create_message` (headers
and the base64 encoding do not affect the claim; the subject and HTML parts
are kept). -/
structure RenderedMessage where
  to_header : String
  from_header : String
  subject : String
  html : String
deriving DecidableEq, Repr

/-- `GmailServiceManager.create_message`: the only substitution it performs
is `\x7b\x7bname\x7d\x7d`/`\x7b\x7bemail\x7d\x7d` in the HTML body; the
subject is stored verbatim. -/
def create_message (sender_email to_email to_name subject html_body : String)
    (sender_name : Option String) : RenderedMessage :=
  { to_header := to_name ++ " <" ++ to_email ++ ">"
    from_header :=
      match sender_name with
      | some n => n ++ " <" ++ sender_email ++ ">"
      | none => sender_email
    subject := subject
    html :=
      pyReplace (pyReplace html_body "\x7b\x7bname\x7d\x7d" to_name)
        "\x7b\x7bemail\x7d\x7d" to_email }

/-- The campaign content the render pipeline reads. -/
structure CampaignContent where
  subject : String
  html_body : String
  from_name : String
deriving DecidableEq, Repr

/-- One recipient's message as built in `EmailSender._send_user_emails`:
`create_message` applied to the verbatim campaign subject and the
template-processed body. -/
def render_user_email (campaign : CampaignContent) (user_email : String)
    (r : Recipient) : RenderedMessage :=
  create_message user_email r.email r.name campaign.subject
    (process_template campaign.html_body r.custom_data)
    (some campaign.from_name)

/-- Substitution of every data key's placeholder into a string, following
the spec's words (for comparison with what the code renders). -/
def specSubstitute (s : String) (custom_data : List (String × String)) :
    String :=
  custom_data.foldl
    (fun acc kv => pyReplace acc ("\x7b\x7b" ++ kv.1 ++ "\x7d\x7d") kv.2) s

/-- C9 counterexample: a personalization key that appears in the subject is
not substituted — the rendered subject keeps the placeholder verbatim while
the body is substituted; the spec-level substitution of the subject would
give a different string. -/
theorem C9_counterexample :
    (render_user_email
        ⟨"Use \x7b\x7bcoupon\x7d\x7d", "Body \x7b\x7bcoupon\x7d\x7d", "Acme"⟩
        "a@acme.io"
        ⟨1, "r@x.io", "R", [("coupon", "X1")], .PENDING, none⟩).subject =
      "Use \x7b\x7bcoupon\x7d\x7d" ∧
    specSubstitute "Use \x7b\x7bcoupon\x7d\x7d" [("coupon", "X1")] =
      "Use X1" ∧
    (render_user_email
        ⟨"Use \x7b\x7bcoupon\x7d\x7d", "Body \x7b\x7bcoupon\x7d\x7d", "Acme"⟩
        "a@acme.io"
        ⟨1, "r@x.io", "R", [("coupon", "X1")], .PENDING, none⟩).subject ≠
      specSubstitute "Use \x7b\x7bcoupon\x7d\x7d" [("coupon", "X1")] ∧
    (render_user_email
        ⟨"Use \x7b\x7bcoupon\x7d\x7d", "Body \x7b\x7bcoupon\x7d\x7d", "Acme"⟩
        "a@acme.io"
        ⟨1, "r@x.io", "R", [("coupon", "X1")], .PENDING, none⟩).html =
      "Body X1" := by
  refine ⟨rfl, by decide, by decide, by decide⟩

/-- C9 (amended): rendering is a total function that substitutes
personalization keys only in the HTML body; the subject is emitted verbatim
for every campaign, sender and recipient, and a recipient with no
personalization data gets the body with only the built-in
name/email placeholders substituted. -/
theorem C9_subject_verbatim (campaign : CampaignContent)
    (user_email : String) (r : Recipient) :
    (render_user_email campaign user_email r).subject = campaign.subject ∧
    (r.custom_data = [] →
      (render_user_email campaign user_email r).html =
        pyReplace (pyReplace campaign.html_body "\x7b\x7bname\x7d\x7d"
          r.name) "\x7b\x7bemail\x7d\x7d" r.email) := by
  constructor
  · rfl
  · intro h
    unfold render_user_email create_message process_template
    rw [h]
    rfl

/-- Witness for the amended C9 at a concrete recipient with empty data. -/
theorem C9_subject_verbatim_witness :
    (⟨2, "s@x.io", "S", [], .PENDING, none⟩ : Recipient).custom_data = [] ∧
    ((render_user_email ⟨"Hello", "Hi \x7b\x7bname\x7d\x7d", "Acme"⟩
        "a@acme.io" ⟨2, "s@x.io", "S", [], .PENDING, none⟩).subject =
      "Hello" ∧
     ((⟨2, "s@x.io", "S", [], .PENDING, none⟩ : Recipient).custom_data =
        [] →
      (render_user_email ⟨"Hello", "Hi \x7b\x7bname\x7d\x7d", "Acme"⟩
          "a@acme.io" ⟨2, "s@x.io", "S", [], .PENDING, none⟩).html =
        pyReplace (pyReplace "Hi \x7b\x7bname\x7d\x7d" "\x7b\x7bname\x7d\x7d"
          "S") "\x7b\x7bemail\x7d\x7d" "s@x.io")) :=
  ⟨rfl, C9_subject_verbatim ⟨"Hello", "Hi \x7b\x7bname\x7d\x7d", "Acme"⟩
    "a@acme.io" ⟨2, "s@x.io", "S", [], .PENDING, none⟩⟩

/-! ### Campaign creation from CSV (`crud.create_campaign`,
`crud.create_advanced_campaign`)

`json.loads` from the Python standard library is embedded as a syntax
checker for the JSON grammar (with Python's `NaN`/`Infinity` extensions);
its fuel is a character count, sufficient for every concrete document the
claims evaluate. -/

def jsonWsChar (c : Char) : Bool :=
  c = ' ' || c = '\t' || c = '\n' || c = '\r'

def skipWs (s : List Char) : List Char := s.dropWhile jsonWsChar

def expectLit (lit : List Char) (s : List Char) : Option (List Char) :=
  if lit.isPrefixOf s then some (s.drop lit.length) else none

def parseFracOpt (s : List Char) : Option (List Char) :=
  match s with
  | '.' :: rest =>
      if (rest.takeWhile (fun c => c.isDigit)).isEmpty then none
      else some (rest.dropWhile (fun c => c.isDigit))
  | _ => some s

def parseExpOpt (s : List Char) : Option (List Char) :=
  match s with
  | c :: rest =>
      if c = 'e' ∨ c = 'E' then
        let rest2 :=
          match rest with
          | s2 :: r => if s2 = '+' ∨ s2 = '-' then r else rest
          | [] => rest
        if (rest2.takeWhile (fun c => c.isDigit)).isEmpty then none
        else some (rest2.dropWhile (fun c => c.isDigit))
      else some (c :: rest)
  | [] => some []

def parseIntPart (s : List Char) : Option (List Char) :=
  match s with
  | '0' :: rest => some rest
  | c :: rest =>
      if c.isDigit then some (rest.dropWhile (fun c => c.isDigit)) else none
  | [] => none

def parseNumTail (s : List Char) : Option (List Char) :=
  match parseIntPart s with
  | none => none
  | some s1 =>
      match parseFracOpt s1 with
      | none => none
      | some s2 => parseExpOpt s2

def isHexDigitChar (c : Char) : Bool :=
  c.isDigit || ('a' ≤ c && c ≤ 'f') || ('A' ≤ c && c ≤ 'F')

def isJsonEsc (c : Char) : Bool :=
  c = '"' || c = '\\' || c = '/' || c = 'b' || c = 'f' || c = 'n' ||
    c = 'r' || c = 't'

mutual

def parseJsonValue : Nat → List Char → Option (List Char)
  | 0, _ => none
  | fuel + 1, s =>
      match s with
      | [] => none
      | c :: rest =>
          if c = '"' then parseStrBody fuel rest
          else if c = '[' then
            match skipWs rest with
            | ']' :: r => some r
            | s2 => parseArrayItems fuel s2
          else if c = '\x7b' then
            match skipWs rest with
            | '\x7d' :: r => some r
            | s2 => parseObjItems fuel s2
          else if c = 'n' then expectLit ['u', 'l', 'l'] rest
          else if c = 't' then expectLit ['r', 'u', 'e'] rest
          else if c = 'f' then expectLit ['a', 'l', 's', 'e'] rest
          else if c = 'N' then expectLit ['a', 'N'] rest
          else if c = 'I' then
            expectLit ['n', 'f', 'i', 'n', 'i', 't', 'y'] rest
          else if c = '-' then
            match rest with
            | 'I' :: r2 => expectLit ['n', 'f', 'i', 'n', 'i', 't', 'y'] r2
            | _ => parseNumTail rest
          else parseNumTail (c :: rest)

def parseStrBody : Nat → List Char → Option (List Char)
  | 0, _ => none
  | fuel + 1, s =>
      match s with
      | [] => none
      | '"' :: rest => some rest
      | '\\' :: e :: rest =>
          if isJsonEsc e then parseStrBody fuel rest
          else if e = 'u' then
            match rest with
            | a :: b :: c2 :: d :: r =>
                if isHexDigitChar a && isHexDigitChar b &&
                    isHexDigitChar c2 && isHexDigitChar d then
                  parseStrBody fuel r
                else none
            | _ => none
          else none
      | c :: rest =>
          if c.toNat < 32 then none else parseStrBody fuel rest

def parseArrayItems : Nat → List Char → Option (List Char)
  | 0, _ => none
  | fuel + 1, s =>
      match parseJsonValue fuel s with
      | none => none
      | some rem =>
          match skipWs rem with
          | ']' :: r => some r
          | ',' :: r => parseArrayItems fuel (skipWs r)
          | _ => none

def parseObjItems : Nat → List Char → Option (List Char)
  | 0, _ => none
  | fuel + 1, s =>
      match s with
      | '"' :: rest =>
          match parseStrBody fuel rest with
          | none => none
          | some rem =>
              match skipWs rem with
              | ':' :: r =>
                  match parseJsonValue fuel (skipWs r) with
                  | none => none
                  | some rem2 =>
                      match skipWs rem2 with
                      | '\x7d' :: r2 => some r2
                      | ',' :: r2 => parseObjItems fuel (skipWs r2)
                      | _ => none
              | _ => none
      | _ => none

end

/-- Model of `json.loads(s)` succeeding: the whole (whitespace-trimmed)
input is one JSON document. -/
def jsonValid (s : String) : Bool :=
  match parseJsonValue (s.data.length + 1) (skipWs s.data) with
  | some rem => (skipWs rem).isEmpty
  | none => false

/-- Python `str.strip()` (over the repository's ASCII inputs). -/
def pyWsChar (c : Char) : Bool :=
  c = ' ' || c = '\t' || c = '\n' || c = '\r' || c = '\x0b' || c = '\x0c'

def pyStrip (s : String) : String :=
  ⟨((s.data.dropWhile pyWsChar).reverse.dropWhile pyWsChar).reverse⟩

/-- Python `str.split(sep)` for a one-character separator. -/
def splitOnChar (sep : Char) : List Char → List (List Char)
  | [] => [[]]
  | c :: rest =>
      if c = sep then [] :: splitOnChar sep rest
      else
        match splitOnChar sep rest with
        | g :: gs => (c :: g) :: gs
        | [] => [[c]]

/-- Python `str.split(sep, 1)`. -/
def pySplitOnce (sep : Char) (s : String) : List String :=
  let pre := s.data.takeWhile (fun c => c ≠ sep)
  let rest := s.data.dropWhile (fun c => c ≠ sep)
  match rest with
  | [] => [s]
  | _ :: tail => [⟨pre⟩, ⟨tail⟩]

/-- A recipient row produced at campaign creation (the raw third CSV field
is kept as the JSON text handed to `json.loads`). -/
structure ParsedRecipient where
  email : String
  name : String
  custom_raw : Option String
  status : RecipientStatus
deriving DecidableEq, Repr

/-- One iteration of the recipient loop of `crud.create_campaign`:
non-blank lines are split once on the first comma; only two-part lines
produce a Pending recipient; everything else is silently skipped. -/
def basicLineStep (acc : List ParsedRecipient) (line : List Char) :
    List ParsedRecipient :=
  if pyStrip ⟨line⟩ ≠ "" then
    match pySplitOnce ',' (pyStrip ⟨line⟩) with
    | [email, name] =>
        acc ++ [{ email := pyStrip email, name := pyStrip name,
                  custom_raw := none, status := RecipientStatus.PENDING }]
    | _ => acc
  else acc

/-- The recipient-parsing loop of `crud.create_campaign`. -/
def create_campaign_recipients (recipients_csv : String) :
    List ParsedRecipient :=
  (splitOnChar '\n' (pyStrip recipients_csv).data).foldl basicLineStep []

/-- One iteration of the recipient loop of `crud.create_advanced_campaign`:
full comma split, lines with at least two fields produce a Pending
recipient; a non-blank third field goes through `json.loads`, whose
failure raises and aborts the whole creation. -/
def advLineStep (acc : Except String (List ParsedRecipient))
    (line : List Char) : Except String (List ParsedRecipient) :=
  match acc with
  | .error e => .error e
  | .ok recips =>
      if pyStrip ⟨line⟩ ≠ "" then
        match (splitOnChar ',' (pyStrip ⟨line⟩).data).map
            (fun l => (⟨l⟩ : String)) with
        | p0 :: p1 :: rest =>
            match rest with
            | p2 :: _ =>
                if pyStrip p2 ≠ "" then
                  if jsonValid p2 then
                    .ok (recips ++
                      [{ email := pyStrip p0, name := pyStrip p1,
                         custom_raw := some p2,
                         status := RecipientStatus.PENDING }])
                  else .error "JSONDecodeError"
                else
                  .ok (recips ++
                    [{ email := pyStrip p0, name := pyStrip p1,
                       custom_raw := none,
                       status := RecipientStatus.PENDING }])
            | [] =>
                .ok (recips ++
                  [{ email := pyStrip p0, name := pyStrip p1,
                     custom_raw := none,
                     status := RecipientStatus.PENDING }])
        | _ => .ok recips
      else .ok recips

/-- The recipient-parsing loop of `crud.create_advanced_campaign`. -/
def create_advanced_campaign_recipients (recipients_csv : String) :
    Except String (List ParsedRecipient) :=
  (splitOnChar '\n' (pyStrip recipients_csv).data).foldl advLineStep
    (.ok [])

/-- The claim's notion of a well-formed CSV line: non-blank with at least
two comma-separated fields. -/
def wellFormedLine (line : List Char) : Bool :=
  decide (pyStrip ⟨line⟩ ≠ "") &&
    decide (2 ≤ (splitOnChar ',' (pyStrip ⟨line⟩).data).length)

/-- The extra hypothesis the advanced parser needs: whenever a non-blank
line has a non-blank third field, that field is valid JSON. -/
def thirdFieldOk (line : List Char) : Bool :=
  if pyStrip ⟨line⟩ = "" then true
  else
    match splitOnChar ',' (pyStrip ⟨line⟩).data with
    | _ :: _ :: p2 :: _ =>
        if pyStrip ⟨p2⟩ = "" then true else jsonValid ⟨p2⟩
    | _ => true

lemma splitOnChar_ne_nil (sep : Char) (l : List Char) :
    splitOnChar sep l ≠ [] := by
  induction l with
  | nil => simp [splitOnChar]
  | cons c rest ih =>
      by_cases h : c = sep
      · simp [splitOnChar, h]
      · rcases hs : splitOnChar sep rest with _ | ⟨g, gs⟩
        · exact absurd hs ih
        · simp [splitOnChar, h, hs]

lemma splitOnChar_length (sep : Char) (l : List Char) :
    (splitOnChar sep l).length = l.countP (fun c => c = sep) + 1 := by
  induction l with
  | nil => simp [splitOnChar]
  | cons c rest ih =>
      by_cases h : c = sep
      · simp [splitOnChar, h, List.countP_cons, ih]
      · rcases hs : splitOnChar sep rest with _ | ⟨g, gs⟩
        · exact absurd hs (splitOnChar_ne_nil sep rest)
        · rw [hs] at ih
          simp only [splitOnChar, if_neg h, hs, List.length_cons,
            List.countP_cons]
          simp only [List.length_cons] at ih
          simp [h, ih]

lemma two_le_splitOnChar_iff (sep : Char) (l : List Char) :
    2 ≤ (splitOnChar sep l).length ↔ sep ∈ l := by
  rw [splitOnChar_length]
  constructor
  · intro h
    have hpos : 0 < l.countP (fun c => c = sep) := by omega
    obtain ⟨c, hc, hp⟩ := List.countP_pos.mp hpos
    simp only [decide_eq_true_eq] at hp
    exact hp ▸ hc
  · intro h
    have hpos : 0 < l.countP (fun c => c = sep) :=
      List.countP_pos.mpr ⟨sep, h, by simp⟩
    omega

lemma dropWhile_nil_iff_not_mem (sep : Char) (l : List Char) :
    l.dropWhile (fun c => c ≠ sep) = [] ↔ sep ∉ l := by
  rw [List.dropWhile_eq_nil_iff]
  constructor
  · intro h hmem
    have := h sep hmem
    simp at this
  · intro h c hc
    simp only [ne_eq, decide_eq_true_eq]
    intro he
    exact h (he ▸ hc)

lemma basic_fold_spec (ls : List (List Char)) :
    ∀ acc : List ParsedRecipient,
      (ls.foldl basicLineStep acc).length
          = acc.length + ls.countP wellFormedLine ∧
      ∀ r ∈ ls.foldl basicLineStep acc,
        r ∈ acc ∨ r.status = RecipientStatus.PENDING := by
  induction ls with
  | nil => intro acc; exact ⟨by simp, by simp; exact fun r hr => Or.inl hr⟩
  | cons line rest ih =>
      intro acc
      have hstep :
          (basicLineStep acc line).length
              = acc.length + (if wellFormedLine line then 1 else 0) ∧
          ∀ r ∈ basicLineStep acc line,
            r ∈ acc ∨ r.status = RecipientStatus.PENDING := by
        by_cases hb : pyStrip ⟨line⟩ = ""
        · constructor
          · simp [basicLineStep, hb, wellFormedLine]
          · intro r hr
            simp only [basicLineStep, hb, ne_eq, not_true_eq_false,
              if_false] at hr
            exact Or.inl hr
        · rcases hd : (pyStrip ⟨line⟩).data.dropWhile (fun c => c ≠ ',')
            with _ | ⟨c, tail⟩
          · have hnm : ',' ∉ (pyStrip ⟨line⟩).data :=
              (dropWhile_nil_iff_not_mem ',' _).mp hd
            have hwf : wellFormedLine line = false := by
              simp only [wellFormedLine, Bool.and_eq_false_iff]
              right
              simpa [two_le_splitOnChar_iff] using hnm
            have hmatch : pySplitOnce ',' (pyStrip ⟨line⟩)
                = [pyStrip ⟨line⟩] := by
              have hd2 := hd
              simp only [ne_eq, decide_not] at hd2
              simp [pySplitOnce, hd2]
            constructor
            · simp [basicLineStep, hb, hmatch, hwf]
            · intro r hr
              simp only [basicLineStep, hb, ne_eq, not_false_eq_true,
                if_true, hmatch] at hr
              exact Or.inl hr
          · have hmm : ',' ∈ (pyStrip ⟨line⟩).data := by
              by_contra hn
              rw [(dropWhile_nil_iff_not_mem ',' _).mpr hn] at hd
              exact List.noConfusion hd
            have hwf : wellFormedLine line = true := by
              simp only [wellFormedLine, Bool.and_eq_true, decide_eq_true_eq]
              exact ⟨hb, (two_le_splitOnChar_iff ',' _).mpr hmm⟩
            have hmatch : pySplitOnce ',' (pyStrip ⟨line⟩)
                = [⟨(pyStrip ⟨line⟩).data.takeWhile (fun c => c ≠ ',')⟩,
                    ⟨tail⟩] := by
              have hd2 := hd
              simp only [ne_eq, decide_not] at hd2
              simp [pySplitOnce, hd2]
            constructor
            · simp [basicLineStep, hb, hmatch, hwf]
            · intro r hr
              simp only [basicLineStep, hb, ne_eq, not_false_eq_true,
                if_true, hmatch, List.mem_append, List.mem_singleton] at hr
              rcases hr with hr | hr
              · exact Or.inl hr
              · right; rw [hr]
      have hrest := ih (basicLineStep acc line)
      constructor
      · rw [List.foldl_cons, hrest.1, hstep.1, List.countP_cons]
        by_cases hwf : wellFormedLine line = true <;> simp [hwf] <;> omega
      · intro r hr
        rw [List.foldl_cons] at hr
        rcases hrest.2 r hr with hin | hp
        · rcases hstep.2 r hin with hin2 | hp2
          · exact Or.inl hin2
          · exact Or.inr hp2
        · exact Or.inr hp

lemma adv_fold_spec (ls : List (List Char)) :
    ∀ recips : List ParsedRecipient,
      (∀ line ∈ ls, thirdFieldOk line = true) →
      ∃ rs, ls.foldl advLineStep (Except.ok recips) = Except.ok rs ∧
        rs.length = recips.length + ls.countP wellFormedLine ∧
        ∀ r ∈ rs, r ∈ recips ∨ r.status = RecipientStatus.PENDING := by
  induction ls with
  | nil => intro recips _; exact ⟨recips, by simp, by simp, fun r hr => Or.inl hr⟩
  | cons line rest ih =>
      intro recips hok
      have hline := hok line (List.mem_cons_self line rest)
      have hok2 : ∀ l2 ∈ rest, thirdFieldOk l2 = true :=
        fun l2 h2 => hok l2 (List.mem_cons_of_mem line h2)
      have hstep : ∃ mid, advLineStep (Except.ok recips) line = Except.ok mid ∧
          mid.length = recips.length + (if wellFormedLine line then 1 else 0) ∧
          ∀ r ∈ mid, r ∈ recips ∨ r.status = RecipientStatus.PENDING := by
        by_cases hb : pyStrip ⟨line⟩ = ""
        · refine ⟨recips, ?_, ?_, fun r hr => Or.inl hr⟩
          · simp [advLineStep, hb]
          · simp [wellFormedLine, hb]
        · rcases hs : splitOnChar ',' (pyStrip ⟨line⟩).data
            with _ | ⟨p0, ptl⟩
          · exact absurd hs (splitOnChar_ne_nil ',' _)
          · rcases ptl with _ | ⟨p1, ptl2⟩
            · have hwf : wellFormedLine line = false := by
                simp [wellFormedLine, hs]
              refine ⟨recips, ?_, ?_, fun r hr => Or.inl hr⟩
              · simp [advLineStep, hb, hs]
              · simp [hwf]
            · have hwf : wellFormedLine line = true := by
                simp [wellFormedLine, hb, hs]
              rcases ptl2 with _ | ⟨p2, ptl3⟩
              · refine ⟨recips ++
                  [{ email := pyStrip ⟨p0⟩, name := pyStrip ⟨p1⟩,
                     custom_raw := none,
                     status := RecipientStatus.PENDING }], ?_, ?_, ?_⟩
                · simp [advLineStep, hb, hs]
                · simp [hwf]
                · intro r hr
                  rcases List.mem_append.mp hr with h1 | h1
                  · exact Or.inl h1
                  · right; rw [List.mem_singleton.mp h1]
              · by_cases h2b : pyStrip ⟨p2⟩ = ""
                · refine ⟨recips ++
                    [{ email := pyStrip ⟨p0⟩, name := pyStrip ⟨p1⟩,
                       custom_raw := none,
                       status := RecipientStatus.PENDING }], ?_, ?_, ?_⟩
                  · simp [advLineStep, hb, hs, h2b]
                  · simp [hwf]
                  · intro r hr
                    rcases List.mem_append.mp hr with h1 | h1
                    · exact Or.inl h1
                    · right; rw [List.mem_singleton.mp h1]
                · have hjv : jsonValid ⟨p2⟩ = true := by
                    simp only [thirdFieldOk, hb, if_false, hs, h2b] at hline
                    simpa [h2b] using hline
                  refine ⟨recips ++
                    [{ email := pyStrip ⟨p0⟩, name := pyStrip ⟨p1⟩,
                       custom_raw := some ⟨p2⟩,
                       status := RecipientStatus.PENDING }], ?_, ?_, ?_⟩
                  · simp [advLineStep, hb, hs, h2b, hjv]
                  · simp [hwf]
                  · intro r hr
                    rcases List.mem_append.mp hr with h1 | h1
                    · exact Or.inl h1
                    · right; rw [List.mem_singleton.mp h1]
      obtain ⟨mid, hmid, hlen, hmem⟩ := hstep
      obtain ⟨rs, h1, h2, h3⟩ := ih mid hok2
      refine ⟨rs, ?_, ?_, ?_⟩
      · rw [List.foldl_cons, hmid, h1]
      · rw [h2, hlen, List.countP_cons]
        by_cases hwf : wellFormedLine line = true <;> simp [hwf] <;> omega
      · intro r hr
        rcases h3 r hr with hin | hp
        · rcases hmem r hin with hin2 | hp2
          · exact Or.inl hin2
          · exact Or.inr hp2
        · exact Or.inr hp

/-- C10 counterexample: the CSV document
"x@y.com,Alice\na@b.com,Bob,oops" has exactly two well-formed lines
(non-blank, at least two comma-separated fields) and the basic creation
path does create both as recipients, but `create_advanced_campaign` does
not silently skip anything: the non-blank third field "oops" is handed to
`json.loads`, which raises, so the whole creation errors out instead of
producing two recipients -- refuting "causing no error and not affecting
the recipients created from the other lines". -/
theorem C10_counterexample :
    ((splitOnChar '\n'
        (pyStrip "x@y.com,Alice\na@b.com,Bob,oops").data).countP
      wellFormedLine) = 2 ∧
    (create_campaign_recipients "x@y.com,Alice\na@b.com,Bob,oops").length
        = 2 ∧
    create_advanced_campaign_recipients "x@y.com,Alice\na@b.com,Bob,oops"
        = Except.error "JSONDecodeError" := by
  refine ⟨by decide, by decide, by rfl⟩

/-- C10 (amended): the basic creation path (`create_campaign`) creates
exactly one Pending recipient per well-formed line (non-blank, at least
two comma-separated fields) and silently skips the rest, for every CSV
input; the advanced path (`create_advanced_campaign`) does the same only
under the extra hypothesis that every non-blank third field of a
well-formed line is valid JSON -- otherwise `json.loads` raises and the
whole creation aborts. -/
theorem C10_csv_recipient_creation (csv : String)
    (hok : ∀ line ∈ splitOnChar '\n' (pyStrip csv).data,
      thirdFieldOk line = true) :
    (create_campaign_recipients csv).length
        = (splitOnChar '\n' (pyStrip csv).data).countP wellFormedLine ∧
    (∀ r ∈ create_campaign_recipients csv,
      r.status = RecipientStatus.PENDING) ∧
    ∃ rs, create_advanced_campaign_recipients csv = Except.ok rs ∧
      rs.length
          = (splitOnChar '\n' (pyStrip csv).data).countP wellFormedLine ∧
      ∀ r ∈ rs, r.status = RecipientStatus.PENDING := by
  have hb := basic_fold_spec (splitOnChar '\n' (pyStrip csv).data) []
  refine ⟨?_, ?_, ?_⟩
  · simpa [create_campaign_recipients] using hb.1
  · intro r hr
    rcases hb.2 r hr with hin | hp
    · exact absurd hin (List.not_mem_nil r)
    · exact hp
  · obtain ⟨rs, h1, h2, h3⟩ :=
      adv_fold_spec (splitOnChar '\n' (pyStrip csv).data) [] hok
    refine ⟨rs, h1, by simpa using h2, ?_⟩
    intro r hr
    rcases h3 r hr with hin | hp
    · exact absurd hin (List.not_mem_nil r)
    · exact hp

/-- C10 witness: a five-line CSV with one blank line, one comma-less line,
one line with an empty third field and one line with a JSON third field
yields exactly three Pending recipients on both creation paths. -/
theorem C10_csv_recipient_creation_witness :
    ((splitOnChar '\n'
        (pyStrip
          "x@y.com,Alice\n\nbadline\n a@b.com , Bob ,\nc@d.com,Carol,\x7b\x22k\x22:1\x7d").data).countP
      wellFormedLine = 3) ∧
    (create_campaign_recipients
        "x@y.com,Alice\n\nbadline\n a@b.com , Bob ,\nc@d.com,Carol,\x7b\x22k\x22:1\x7d").length
      = 3 ∧
    ∃ rs, create_advanced_campaign_recipients
        "x@y.com,Alice\n\nbadline\n a@b.com , Bob ,\nc@d.com,Carol,\x7b\x22k\x22:1\x7d"
      = Except.ok rs ∧ rs.length = 3 := by
  have h := C10_csv_recipient_creation
    "x@y.com,Alice\n\nbadline\n a@b.com , Bob ,\nc@d.com,Carol,\x7b\x22k\x22:1\x7d"
    (by decide)
  refine ⟨by decide, ?_, ?_⟩
  · rw [h.1]; decide
  · obtain ⟨rs, h1, h2, _⟩ := h.2.2
    exact ⟨rs, h1, by rw [h2]; decide⟩

end ApiSaasGapp
